import Mathlib

/-!
Verification of the seneschal synchronization subsystem.

Shallow embedding of the merge engine, sync engine, OAuth handler and
Google Drive provider from the repository sources:
  - src/core/js/sync/index.js          (sync engine, mergeData, mergeArrays)
  - src/unnamed/part_001               (oauth/index.js)
  - src/unnamed/part_000               (providers/google-drive.js)
-/

namespace Seneschal

/-! ## JavaScript timestamp model

`new Date(x || 0).getTime()` yields a number or NaN.  We model the parsed
time as `Option Int` (`none` = NaN) and leave the date parser abstract:
theorems quantify over any `parse : String → Option Int`.  A falsy
`updatedAt` (absent or the empty string) yields `new Date(0).getTime() = 0`.
JavaScript `>` on numbers is false whenever either side is NaN. -/

/-- JS `a > b` on possibly-NaN numbers (`none` = NaN). -/
def jsGt : Option Int → Option Int → Bool
  | some a, some b => decide (b < a)
  | _, _ => false

/-- A synced record: `id`, `updatedAt` (absent models a missing/undefined
field) and an opaque payload standing for the record's other fields. -/
structure Record where
  id : String
  updatedAt : Option String
  payload : String
deriving DecidableEq, Repr

/-- `new Date(item.updatedAt || 0).getTime()` for a record. -/
def tOf (parse : String → Option Int) (r : Record) : Option Int :=
  match r.updatedAt with
  | none => some 0
  | some s => if s = "" then some 0 else parse s

/-! ## The JS `Map` used by `mergeArrays`

A JavaScript `Map` is insertion-ordered; `set` on an existing key updates
the value in place, otherwise appends.  We model it as an association
list. -/

abbrev IdMap := List (String × Record)

/-- `Map.set`: update in place if the key exists, else append. -/
def mapSet : IdMap → String → Record → IdMap
  | [], k, v => [(k, v)]
  | p :: m, k, v => if p.1 == k then (k, v) :: m else p :: mapSet m k v

/-- `Map.get`: first entry with the key. -/
def mapGet : IdMap → String → Option Record
  | [], _ => none
  | p :: m, k => if p.1 == k then some p.2 else mapGet m k

/-- `Array.from(map.values())`. -/
def mapValues (m : IdMap) : List Record := m.map Prod.snd

/-- Seeding loop of `mergeArrays`: `for (const item of local) merged.set(item.id, item)`. -/
def seedMap (l : List Record) : IdMap :=
  l.foldl (fun m it => mapSet m it.id it) []

/-- One step of the remote loop of `mergeArrays` (its effect on the map). -/
def remStep (parse : String → Option Int) (m : IdMap) (r : Record) : IdMap :=
  match mapGet m r.id with
  | none => mapSet m r.id r
  | some l => if jsGt (tOf parse r) (tOf parse l) then mapSet m r.id r else m

/-- The remote loop of `mergeArrays` (its effect on the map). -/
def remMap (parse : String → Option Int) (m : IdMap) (rs : List Record) : IdMap :=
  rs.foldl (remStep parse) m

/-- One step of the remote loop's effect on the `hasLocalChanges` flag. -/
def remFlagStep (parse : String → Option Int) (acc : IdMap × Bool) (r : Record) : IdMap × Bool :=
  match mapGet acc.1 r.id with
  | none => (mapSet acc.1 r.id r, acc.2)
  | some l =>
    if jsGt (tOf parse r) (tOf parse l) then (mapSet acc.1 r.id r, acc.2)
    else if jsGt (tOf parse l) (tOf parse r) then (acc.1, true)
    else acc

/-- Result of `mergeArrays` / `mergeData`: the JS object
`{local, hasLocalChanges}` (the `local` field is called `loc` because
`local` is a Lean keyword). -/
structure MergeResult where
  loc : List Record
  hasLocalChanges : Bool
deriving DecidableEq, Repr

/-- `mergeArrays(local, remote)` from src/core/js/sync/index.js lines 191-232. -/
def mergeArrays (parse : String → Option Int) (localItems remoteItems : List Record) :
    MergeResult :=
  let p := remoteItems.foldl (remFlagStep parse) (seedMap localItems, false)
  let h := p.2 || localItems.any (fun it => !(remoteItems.any (fun r => r.id == it.id)))
  ⟨mapValues p.1, h⟩

/-- A concrete timestamp parser (the length of the string), used to
instantiate abstract-parser theorems on concrete inputs. -/
def parseLen (s : String) : Option Int := some (s.length : Int)

example :
    let a : Record := ⟨"x", some "ttttt", "A"⟩
    let b : Record := ⟨"x", some "ttt", "B"⟩
    let c : Record := ⟨"y", some "ttttttt", "C"⟩
    (mergeArrays parseLen [a] [b, c]).loc = [a, c] := by rfl

example :
    let a : Record := ⟨"x", some "tt", "A"⟩
    let b : Record := ⟨"x", some "ttt", "B"⟩
    (mergeArrays parseLen [a] [b]) = ⟨[b], false⟩ := by rfl

/-! ## Snapshots and `mergeData`

A domain snapshot is a JS value: an array of records, an object with an
`items` array plus scalar metadata, or a plain scalar object.  A scalar
object carries an optional `updatedAt` and its remaining string-valued
fields; JavaScript objects cannot contain the same key twice, which the
well-formedness predicate expresses. -/

/-- Scalar (non-`items`) part of a snapshot object. -/
structure ScalarObj where
  updatedAt : Option String
  fields : List (String × String)
deriving DecidableEq, Repr

/-- A JS object has pairwise-distinct keys. -/
def ScalarObj.WF (o : ScalarObj) : Prop := (o.fields.map Prod.fst).Nodup

inductive Snapshot where
  /-- a JS array of records -/
  | arr (items : List Record)
  /-- an object with an `items` array and further scalar fields -/
  | withItems (meta : ScalarObj) (items : List Record)
  /-- a plain scalar object -/
  | scalar (obj : ScalarObj)
deriving DecidableEq, Repr

def Snapshot.WF : Snapshot → Prop
  | .arr _ => True
  | .withItems m _ => m.WF
  | .scalar o => o.WF

/-- `local.updatedAt` of a snapshot value (undefined on an array). -/
def updatedAtOf : Snapshot → Option String
  | .arr _ => none
  | .withItems m _ => m.updatedAt
  | .scalar o => o.updatedAt

/-- `new Date(x.updatedAt || 0).getTime()` at snapshot level. -/
def snapTime (parse : String → Option Int) (x : Snapshot) : Option Int :=
  match updatedAtOf x with
  | none => some 0
  | some s => if s = "" then some 0 else parse s

/-- JS spread override for one key: `{...l, ...r}` keeps `r`'s value when
the key is present in `r`. -/
def jsOverride (l r : Option String) : Option String :=
  match r with
  | some u => some u
  | none => l

/-- `{...l, ...r}` on the string-valued fields: `l`'s keys in order with
values overridden by `r`, then `r`-only keys in `r`'s order. -/
def spreadFields (l r : List (String × String)) : List (String × String) :=
  l.map (fun p =>
      match r.find? (fun q => q.1 == p.1) with
      | some q => (p.1, q.2)
      | none => p)
    ++ r.filter (fun q => !(l.any (fun p => p.1 == q.1)))

/-- `{...local, ...remote}` on the scalar parts. -/
def spreadObj (l r : ScalarObj) : ScalarObj :=
  ⟨jsOverride l.updatedAt r.updatedAt, spreadFields l.fields r.fields⟩

/-- Result of `mergeData`: `{local, hasLocalChanges}` where the merged
snapshot may be null (when both inputs are null). -/
structure DataMergeResult where
  loc : Option Snapshot
  hasLocalChanges : Bool
deriving DecidableEq, Repr

/-- `mergeData(local, remote, lastSync)` from src/core/js/sync/index.js
lines 146-186 (its `lastSync` parameter is unused by the body). -/
def mergeData (parse : String → Option Int) (l r : Option Snapshot) : DataMergeResult :=
  match l, r with
  | l, none => ⟨l, true⟩
  | none, some b => ⟨some b, false⟩
  | some a, some b =>
    match a, b with
    | .arr la, .arr ra =>
      let m := mergeArrays parse la ra
      ⟨some (.arr m.loc), m.hasLocalChanges⟩
    | .withItems lm li, .withItems rm ri =>
      let m := mergeArrays parse li ri
      ⟨some (.withItems (spreadObj lm rm) m.loc), m.hasLocalChanges⟩
    | a, b =>
      -- simple-object fallback: top-level timestamp comparison
      let lt := snapTime parse a
      let rt := snapTime parse b
      if jsGt rt lt then ⟨some b, false⟩
      else ⟨some a, jsGt lt rt⟩

example :
    let a : Snapshot := .scalar ⟨some "tt", [("k", "va")]⟩
    let b : Snapshot := .scalar ⟨some "ttt", [("k", "vb")]⟩
    mergeData parseLen (some a) (some b) = ⟨some b, false⟩ := by rfl

example : mergeData parseLen (some (.arr [])) none = ⟨some (.arr []), true⟩ := by rfl

/-! ## Sync engine

`sync()` from src/core/js/sync/index.js lines 86-140.  The engine state is
`{status, lastError}`; the injected collaborators (provider predicates,
local-data accessor/mutator, last-sync getter/setter, the registered
status listeners) may throw, which we model with `Except String`
(`String` being `err.message`).  `runSync` returns the final engine
state, either the resolved result object or the propagated exception, and
the list of externally visible write effects (local-data writes, pushes,
last-sync writes) performed along the way. -/

inductive SyncStatus where
  | idle | syncing | error
deriving DecidableEq, Repr

structure EngineState where
  status : SyncStatus
  lastError : Option String
deriving DecidableEq, Repr

structure SyncResult where
  success : Bool
  error : Option String
deriving DecidableEq, Repr

/-- An external write performed by `sync()`. -/
inductive SyncEffect where
  | setLocalData (d : Option Snapshot)
  | push (d : Option Snapshot) (lastModified : String)
  | setLastSync (t : String)
deriving DecidableEq, Repr

/-- A status listener: called with `(status, lastError)`, may throw. -/
abbrev Listener := SyncStatus → Option String → Except String Unit

/-- What `provider.fetch()` resolves to: `{data, lastModified}`. -/
structure RemoteResult where
  data : Option Snapshot
  lastModified : Option String
deriving DecidableEq, Repr

/-- The injected collaborators of one `sync()` invocation, each recorded as
the outcome the corresponding call would produce (`.error e` models a
throw with message `e`).  `now` is `new Date().toISOString()`. -/
structure SyncDeps where
  isConnectedR : Except String Bool
  isFolderConfiguredR : Except String Bool
  getLocalDataR : Except String (Option Snapshot)
  getLastSyncR : Except String (Option String)
  fetchR : Except String RemoteResult
  setLocalDataR : Except String Unit
  pushR : Except String Unit
  setLastSyncR : Except String Unit
  listeners : List Listener
  now : String

/-- `notifyStatusChange()` (lines 57-59): `listeners.forEach((l) => l(status, lastError))`;
a throwing listener aborts the loop and the exception propagates. -/
def notifyStatusChange (ls : List Listener) (st : SyncStatus) (e : Option String) :
    Except String Unit :=
  ls.foldlM (fun _ l => l st e) ()

/-- Tail of the `try` block after the conditional push: `setLastSync`,
`status = IDLE`, `notifyStatusChange()`. -/
def syncTail (d : SyncDeps) (effs : List SyncEffect) :
    Except String Unit × List SyncEffect :=
  let effs2 := effs ++ [SyncEffect.setLastSync d.now]
  match d.setLastSyncR with
  | .error e => (.error e, effs2)
  | .ok _ =>
    match notifyStatusChange d.listeners .idle none with
    | .error e => (.error e, effs2)
    | .ok _ => (.ok (), effs2)

/-- The `try` block of `sync()` (lines 103-132): read local data and the
last-sync timestamp, fetch remote, merge, write back, conditionally push,
record the sync time, set `IDLE` and notify. -/
def syncTry (parse : String → Option Int) (d : SyncDeps) :
    Except String Unit × List SyncEffect :=
  match d.getLocalDataR with
  | .error e => (.error e, [])
  | .ok localData =>
    match d.getLastSyncR with
    | .error e => (.error e, [])
    | .ok _lastSync =>
      match d.fetchR with
      | .error e => (.error e, [])
      | .ok remoteResult =>
        let merged := mergeData parse localData remoteResult.data
        let effs1 := [SyncEffect.setLocalData merged.loc]
        match d.setLocalDataR with
        | .error e => (.error e, effs1)
        | .ok _ =>
          if merged.hasLocalChanges then
            let effs2 := effs1 ++ [SyncEffect.push merged.loc d.now]
            match d.pushR with
            | .error e => (.error e, effs2)
            | .ok _ => syncTail d effs2
          else syncTail d effs1

/-- `sync()` (lines 86-140).  Returns the final engine state, the resolved
result (or the exception that escapes the call), and the effect log. -/
def runSync (parse : String → Option Int) (d : SyncDeps) (s : EngineState) :
    EngineState × Except String SyncResult × List SyncEffect :=
  if s.status = .syncing then
    (s, .ok ⟨false, some "Sync already in progress"⟩, [])
  else
    match d.isConnectedR with
    | .error e => (s, .error e, [])
    | .ok c =>
      if c = false then (s, .ok ⟨false, some "Not connected to sync provider"⟩, [])
      else
        match d.isFolderConfiguredR with
        | .error e => (s, .error e, [])
        | .ok f =>
          if f = false then (s, .ok ⟨false, some "No sync folder configured"⟩, [])
          else
            -- status = SYNCING; lastError = null; notifyStatusChange();
            -- (this notification happens before the try block)
            let s1 : EngineState := ⟨.syncing, none⟩
            match notifyStatusChange d.listeners .syncing none with
            | .error e => (s1, .error e, [])
            | .ok _ =>
              match syncTry parse d with
              | (.ok _, effs) => (⟨.idle, none⟩, .ok ⟨true, none⟩, effs)
              | (.error e, effs) =>
                -- catch: status = ERROR; lastError = err.message; notify; resolve
                match notifyStatusChange d.listeners .error (some e) with
                | .error e2 => (⟨.error, some e⟩, .error e2, effs)
                | .ok _ => (⟨.error, some e⟩, .ok ⟨false, some e⟩, effs)

/-! ## OAuth handler (src/unnamed/part_001, oauth/index.js)

`localStorage` entries are modelled as the parsed record an entry would
round-trip to (or `none` when absent).  `URLSearchParams.get` yields
`null` or a string; JS truthiness on such a value is "present and
non-empty". -/

/-- JS truthiness of a `string | null` value. -/
def jsTruthyStr : Option String → Bool
  | none => false
  | some s => s != ""

/-- The parsed `oauth-{provider}` entry: `{state, verifier, timestamp}`. -/
structure StoredOAuth where
  state : String
  verifier : String
  timestamp : Int
deriving DecidableEq, Repr

/-- The parsed `token-{provider}` entry: `{accessToken, refreshToken, expiry}`. -/
structure StoredToken where
  accessToken : String
  refreshToken : Option String
  expiry : Int
deriving DecidableEq, Repr

/-- `getOAuthState(provider)` (lines 94-107): returns the saved session,
discarding it when it is more than 10 minutes old.  Result: the returned
value and the entry left in storage. -/
def getOAuthState (stored : Option StoredOAuth) (nowMs : Int) :
    Option StoredOAuth × Option StoredOAuth :=
  match stored with
  | none => (none, none)
  | some p =>
    if nowMs - p.timestamp > 10 * 60 * 1000 then (none, none)
    else (some p, some p)

/-- The token-endpoint response consumed by `handleCallback`:
`ok` is `response.ok`; the remaining fields are the parsed JSON body
(`expires_in` absent means the 3600 s default applies). -/
structure TokenResponse where
  ok : Bool
  access_token : String
  refresh_token : Option String
  expires_in : Option Int
  error_description : Option String
  errorField : Option String
deriving DecidableEq, Repr

/-- `saveToken(provider, token)` (lines 112-119). -/
def saveToken (nowMs : Int) (t : TokenResponse) : StoredToken :=
  ⟨t.access_token, t.refresh_token, nowMs + (t.expires_in.getD 3600) * 1000⟩

/-- `errorData.error_description || errorData.error` in the exchange
failure message (JS renders a missing field as `undefined`). -/
def exchangeErrDetail (t : TokenResponse) : String :=
  if jsTruthyStr t.error_description then t.error_description.getD ""
  else if jsTruthyStr t.errorField then t.errorField.getD ""
  else "undefined"

/-- All inputs of one `handleCallback` run: the callback query parameters,
the saved OAuth session, the clock and the token-endpoint response. -/
structure CallbackEnv where
  code : Option String
  state : Option String
  errorParam : Option String
  saved : Option StoredOAuth
  nowMs : Int
  resp : TokenResponse
deriving Repr

/-- Outcome of a successful `handleCallback`: the persisted token record;
the saved OAuth session is removed and the URL cleaned. -/
structure CallbackSuccess where
  token : StoredToken
  sessionCleared : Bool
deriving DecidableEq, Repr

/-- `handleCallback(provider, clientId, redirectUri, clientSecret)`
(lines 202-266), for a known provider.  A `.error` is a thrown `Error`
with that message (the spec's `AuthError`). -/
def handleCallback (env : CallbackEnv) : Except String CallbackSuccess :=
  if jsTruthyStr env.errorParam then
    .error ("OAuth error: " ++ env.errorParam.getD "")
  else if !jsTruthyStr env.code || !jsTruthyStr env.state then
    .error "Missing code or state parameter"
  else
    match (getOAuthState env.saved env.nowMs).1 with
    | none => .error "Invalid state parameter"
    | some sv =>
      if sv.state != env.state.getD "" then .error "Invalid state parameter"
      else if !env.resp.ok then
        .error ("Token exchange failed: " ++ exchangeErrDetail env.resp)
      else .ok ⟨saveToken env.nowMs env.resp, true⟩

/-- `getToken(provider)` (lines 124-141): the returned access token and
the token entry left in storage. -/
def getTokenRun (stored : Option StoredToken) (nowMs : Int) :
    Option String × Option StoredToken :=
  match stored with
  | none => (none, none)
  | some p =>
    if nowMs > p.expiry - 5 * 60 * 1000 then
      if jsTruthyStr p.refreshToken then (none, some p)
      else (none, none)
    else (some p.accessToken, some p)

example :
    getTokenRun (some ⟨"tok", none, 1000000⟩) (1000000 - 299999) = (none, none) := by rfl

example :
    getTokenRun (some ⟨"tok", none, 1000000⟩) (1000000 - 300000) =
      (some "tok", some ⟨"tok", none, 1000000⟩) := by rfl

/-! ## Google Drive provider (src/unnamed/part_000, providers/google-drive.js)

JS values flowing through the provider are modelled by `JVal`.  The
network is an oracle `net : Nat → NetResp` giving the response to the
n-th request of the run; the provider state counts the requests already
issued, so "performed network I/O" is visible as an increase of `calls`.
`JSON.parse` / `response.json()` is the abstract `jparse` (`none` models a
parse failure). -/

/-- A JavaScript value. -/
inductive JVal where
  | jundefined
  | jnull
  | jbool (b : Bool)
  | jnum (n : Int)
  | jstr (s : String)
  | jarr (elems : List JVal)
  | jobj (fields : List (String × JVal))

/-- JS truthiness of a value. -/
def JVal.truthy : JVal → Bool
  | .jundefined => false
  | .jnull => false
  | .jbool b => b
  | .jnum n => n != 0
  | .jstr s => s != ""
  | .jarr _ => true
  | .jobj _ => true

/-- `typeof v === 'object'` (true for objects, arrays and `null`). -/
def JVal.isObjectType : JVal → Bool
  | .jnull => true
  | .jarr _ => true
  | .jobj _ => true
  | _ => false

/-- Optional-chaining property access `v?.k`: `undefined` on anything
without that property, never throws. -/
def JVal.getQ : JVal → String → JVal
  | .jobj fs, k => ((fs.find? (fun p => p.1 == k)).map Prod.snd).getD .jundefined
  | _, _ => .jundefined

/-- Plain property access `v.k`: throws a `TypeError` on `null`/`undefined`,
otherwise like `getQ`. -/
def JVal.getE : JVal → String → Except String JVal
  | .jnull, _ => .error "TypeError: cannot read properties of null"
  | .jundefined, _ => .error "TypeError: cannot read properties of undefined"
  | v, k => .ok (v.getQ k)

/-- `v?.length > 0` for the list-of-files checks. -/
def JVal.lengthPos : JVal → Bool
  | .jarr xs => !xs.isEmpty
  | .jstr s => s != ""
  | _ => false

/-- `v[0]`. -/
def JVal.idx0 : JVal → JVal
  | .jarr (x :: _) => x
  | .jstr s =>
    match s.toList with
    | c :: _ => .jstr (String.mk [c])
    | [] => .jundefined
  | _ => .jundefined

/-- `v || d`. -/
def jsOr (v d : JVal) : JVal := if v.truthy then v else d

/-- String rendering of a value used in `Error` messages. -/
def JVal.render : JVal → String
  | .jundefined => "undefined"
  | .jnull => "null"
  | .jbool b => if b then "true" else "false"
  | .jnum n => toString n
  | .jstr s => s
  | .jarr _ => ""
  | .jobj _ => "[object Object]"

/-- One HTTP response: `ok` status and body text. -/
structure NetResp where
  ok : Bool
  text : String

/-- Provider environment: the current `getToken('google')` result, the
saved folder's id, the JSON parser and the network oracle. -/
structure PEnv where
  token : Option String
  folder : Option String
  jparse : String → Option JVal
  net : Nat → NetResp

/-- Provider-internal mutable state: the cached `fileId` and
`attachmentsFolderId` (JS variables initialised to `null`) and the number
of network requests issued so far. -/
structure PState where
  fileId : JVal
  attachmentsFolderId : JVal
  calls : Nat

/-- Error message of a non-ok response in `apiRequest`:
`error.error?.message || 'API request failed'` where `error` is
`await response.json().catch(() => ({}))`. -/
def apiErrMsg (env : PEnv) (text : String) : Except String String :=
  let e := (env.jparse text).getD (JVal.jobj [])
  match e.getE "error" with
  | .error te => .error te
  | .ok ev =>
    let m := ev.getQ "message"
    .ok (if m.truthy then m.render else "API request failed")

/-- `apiRequest(path, options)` (lines 103-132): fails fast when
`getToken` returns null, otherwise issues one request; a non-ok response
throws; an empty or unparseable body yields `null`. -/
def apiRequest (env : PEnv) (s : PState) : Except String JVal × PState :=
  match env.token with
  | none => (.error "Not authenticated with Google", s)
  | some _ =>
    let r := env.net s.calls
    let s2 := { s with calls := s.calls + 1 }
    if r.ok = false then
      match apiErrMsg env r.text with
      | .error te => (.error te, s2)
      | .ok m => (.error m, s2)
    else if r.text = "" then (.ok .jnull, s2)
    else
      match env.jparse r.text with
      | some v => (.ok v, s2)
      | none => (.ok .jnull, s2)

/-- `getOrCreateDataFile()` (lines 137-169): return the cached id, else
search the folder, else create the file; caches the discovered id. -/
def getOrCreateDataFile (env : PEnv) (s : PState) : Except String JVal × PState :=
  if s.fileId.truthy then (.ok s.fileId, s)
  else
    match env.folder with
    | none => (.error "No folder selected. Please select a folder in Settings.", s)
    | some _ =>
      match apiRequest env s with
      | (.error e, s1) => (.error e, s1)
      | (.ok sr, s1) =>
        if (sr.getQ "files").lengthPos then
          match ((sr.getQ "files").idx0).getE "id" with
          | .error te => (.error te, s1)
          | .ok idv => (.ok idv, { s1 with fileId := idv })
        else
          match apiRequest env s1 with
          | (.error e, s2) => (.error e, s2)
          | (.ok cr, s2) =>
            match cr.getE "id" with
            | .error te => (.error te, s2)
            | .ok idv => (.ok idv, { s2 with fileId := idv })

/-- `getOrCreateAttachmentsFolder()` (lines 174-226): return the cached
id, else find/create the `attachments` folder, then find/create the
domain subfolder; caches the discovered id. -/
def getOrCreateAttachmentsFolder (env : PEnv) (s : PState) : Except String JVal × PState :=
  if s.attachmentsFolderId.truthy then (.ok s.attachmentsFolderId, s)
  else
    match env.folder with
    | none => (.error "No folder selected. Please select a folder in Settings.", s)
    | some _ =>
      -- find or create 'attachments'
      match apiRequest env s with
      | (.error e, s1) => (.error e, s1)
      | (.ok ar, s1) =>
        let afterParent : Except String JVal × PState :=
          if (ar.getQ "files").lengthPos then
            match ((ar.getQ "files").idx0).getE "id" with
            | .error te => (.error te, s1)
            | .ok pv => (.ok pv, s1)
          else
            match apiRequest env s1 with
            | (.error e, s2) => (.error e, s2)
            | (.ok cr, s2) =>
              match cr.getE "id" with
              | .error te => (.error te, s2)
              | .ok pv => (.ok pv, s2)
        match afterParent with
        | (.error e, s2) => (.error e, s2)
        | (.ok _parent, s2) =>
          -- find or create the domain subfolder
          match apiRequest env s2 with
          | (.error e, s3) => (.error e, s3)
          | (.ok dr, s3) =>
            if (dr.getQ "files").lengthPos then
              match ((dr.getQ "files").idx0).getE "id" with
              | .error te => (.error te, s3)
              | .ok idv => (.ok idv, { s3 with attachmentsFolderId := idv })
            else
              match apiRequest env s3 with
              | (.error e, s4) => (.error e, s4)
              | (.ok cr, s4) =>
                match cr.getE "id" with
                | .error te => (.error te, s4)
                | .ok idv => (.ok idv, { s4 with attachmentsFolderId := idv })

/-- What `fetch()` resolves to: `{data, lastModified}` as JS values. -/
structure FetchOut where
  data : JVal
  lastModified : JVal

/-- `fetch()` (lines 231-246): locate/create the data file, download its
content; a missing/empty/unparseable/non-object body — or any download
error — yields `{data: null, lastModified: null}`. -/
def fetchOp (env : PEnv) (s : PState) : Except String FetchOut × PState :=
  match getOrCreateDataFile env s with
  | (.error e, s1) => (.error e, s1)
  | (.ok _id, s1) =>
    match apiRequest env s1 with
    | (.error _e, s2) => (.ok ⟨.jnull, .jnull⟩, s2)
    | (.ok resp, s2) =>
      if !resp.truthy || !resp.isObjectType then (.ok ⟨.jnull, .jnull⟩, s2)
      else (.ok ⟨jsOr (resp.getQ "data") .jnull, jsOr (resp.getQ "lastModified") .jnull⟩, s2)

/-- `push(syncData)` (lines 254-287): locate/create the data file, then
upload via a direct `window.fetch` whose bearer token is whatever
`getToken` returned (no null check); a non-ok response throws. -/
def pushOp (env : PEnv) (s : PState) : Except String Bool × PState :=
  match getOrCreateDataFile env s with
  | (.error e, s1) => (.error e, s1)
  | (.ok _id, s1) =>
    let r := env.net s1.calls
    let s2 := { s1 with calls := s1.calls + 1 }
    if r.ok then (.ok true, s2)
    else (.error "Failed to upload data to Google Drive", s2)

/-- The remote object name of an attachment:
`` `${attachmentId}-${filename}` `` (uploadAttachment, line 296). -/
def mkAttachmentName (attachmentId filename : String) : String :=
  attachmentId ++ "-" ++ filename

/-- `uploadAttachment(attachmentId, filename, blob, mimeType)`
(lines 292-321): locate/create the attachments folder, then upload via a
direct `window.fetch` (no token null check); returns `result.id`. -/
def uploadAttachmentOp (env : PEnv) (_attachmentId _filename : String) (s : PState) :
    Except String JVal × PState :=
  match getOrCreateAttachmentsFolder env s with
  | (.error e, s1) => (.error e, s1)
  | (.ok _fid, s1) =>
    let r := env.net s1.calls
    let s2 := { s1 with calls := s1.calls + 1 }
    if !r.ok then (.error "Failed to upload attachment", s2)
    else
      match env.jparse r.text with
      | none => (.error "SyntaxError: unexpected token in JSON", s2)
      | some v =>
        match v.getE "id" with
        | .error te => (.error te, s2)
        | .ok idv => (.ok idv, s2)

/-- `downloadAttachment(remoteId)` (lines 326-340): a direct
`window.fetch` with whatever token `getToken` returned — no
authentication check at all; a non-ok response throws, otherwise the body
is returned. -/
def downloadAttachmentOp (env : PEnv) (s : PState) : Except String String × PState :=
  let r := env.net s.calls
  let s2 := { s with calls := s.calls + 1 }
  if r.ok then (.ok r.text, s2)
  else (.error "Failed to download attachment", s2)

/-- `deleteAttachment(remoteId)` (lines 345-349): one `apiRequest`. -/
def deleteAttachmentOp (env : PEnv) (s : PState) : Except String Unit × PState :=
  match apiRequest env s with
  | (.error e, s1) => (.error e, s1)
  | (.ok _, s1) => (.ok (), s1)

/-- JS `name.indexOf('-')` as an optional position. -/
def dashIndex (name : String) : Option Nat :=
  name.toList.findIdx? (fun c => c = '-')

/-- The name-splitting convention of `listAttachments` (lines 363-365):
`id = dashIndex > 0 ? name.substring(0, dashIndex) : name` and
`filename = dashIndex > 0 ? name.substring(dashIndex + 1) : name`. -/
def parseAttachmentName (name : String) : String × String :=
  match dashIndex name with
  | some i =>
    if 0 < i then
      (String.mk (name.toList.take i), String.mk (name.toList.drop (i + 1)))
    else (name, name)
  | none => (name, name)

/-- An entry of the `listAttachments` result. -/
structure AttachmentEntry where
  id : String
  remoteId : JVal
  filename : String

/-- The `.map` body of `listAttachments` over one file object
(lines 362-374); a non-string `name` makes `name.indexOf` throw. -/
def attachmentEntryOf (f : JVal) : Except String AttachmentEntry :=
  match f.getE "name" with
  | .error te => .error te
  | .ok nv =>
    match nv with
    | .jstr nm =>
      let p := parseAttachmentName nm
      .ok ⟨p.1, f.getQ "id", p.2⟩
    | _ => .error "TypeError: name.indexOf is not a function"

/-- `listAttachments()` (lines 354-375): locate/create the attachments
folder, list it, split each name on the first dash. -/
def listAttachmentsOp (env : PEnv) (s : PState) :
    Except String (List AttachmentEntry) × PState :=
  match getOrCreateAttachmentsFolder env s with
  | (.error e, s1) => (.error e, s1)
  | (.ok _fid, s1) =>
    match apiRequest env s1 with
    | (.error e, s2) => (.error e, s2)
    | (.ok res, s2) =>
      match res.getE "files" with
      | .error te => (.error te, s2)
      | .ok fv =>
        let files := match jsOr fv (.jarr []) with
          | .jarr xs => xs
          | _ => []
        match files.mapM attachmentEntryOf with
        | .error te => (.error te, s2)
        | .ok entries => (.ok entries, s2)

/-- `name.replace('-data.json', '')`: JS `replace` with a string pattern
replaces only the first occurrence. -/
def replaceFirst (s pat : String) : String :=
  replaceFirstAux s.toList pat.toList
where
  replaceFirstAux : List Char → List Char → String
    | [], _ => ""
    | c :: cs, p =>
      if p.isPrefixOf (c :: cs) then String.mk ((c :: cs).drop p.length)
      else String.mk [c] ++ replaceFirstAux cs p

/-- `listAllDomainFiles()` (lines 380-398): `[]` when no folder is
configured, else list `*-data.json` files and strip the suffix. -/
def listAllDomainFilesOp (env : PEnv) (s : PState) :
    Except String (List (String × JVal)) × PState :=
  match env.folder with
  | none => (.ok [], s)
  | some _ =>
    match apiRequest env s with
    | (.error e, s1) => (.error e, s1)
    | (.ok res, s1) =>
      match res.getE "files" with
      | .error te => (.error te, s1)
      | .ok fv =>
        let files := match jsOr fv (.jarr []) with
          | .jarr xs => xs
          | _ => []
        match files.mapM (fun f =>
            match f.getE "name" with
            | .error te => Except.error te
            | .ok nv =>
              match nv with
              | .jstr nm => Except.ok (replaceFirst nm "-data.json", f.getQ "id")
              | _ => Except.error "TypeError: name.replace is not a function") with
        | .error te => (.error te, s1)
        | .ok entries => (.ok entries, s1)

/-- `fetchDomainData(domainFileId)` (lines 403-410): one `apiRequest`;
every failure (including the not-authenticated throw) is swallowed and
yields `null`. -/
def fetchDomainDataOp (env : PEnv) (s : PState) : Except String JVal × PState :=
  match apiRequest env s with
  | (.error _e, s1) => (.ok .jnull, s1)
  | (.ok v, s1) => (.ok v, s1)

example : parseAttachmentName "abc123-photo-1.png" = ("abc123", "photo-1.png") := by rfl
example : parseAttachmentName "nodash.png" = ("nodash.png", "nodash.png") := by rfl
example : replaceFirst "gardener-data.json" "-data.json" = "gardener" := by rfl

/-! ## Lemmas about the id map -/

/-- Keys of an `IdMap`. -/
def mapKeys (m : IdMap) : List String := m.map Prod.fst

/-- Every entry's key is its record's id (always true of the maps
`mergeArrays` builds, since `set` is only called with `(x.id, x)`). -/
def KeyCoherent (m : IdMap) : Prop := ∀ p ∈ m, p.1 = p.2.id

theorem mapGet_mapSet_self (m : IdMap) (k : String) (v : Record) :
    mapGet (mapSet m k v) k = some v := by
  induction m with
  | nil => simp [mapSet, mapGet]
  | cons p m ih =>
    by_cases h : p.1 = k
    · simp [mapSet, mapGet, h]
    · simp only [mapSet, mapGet, beq_iff_eq, h, if_false, if_neg h]
      exact ih

theorem mapGet_mapSet_ne (m : IdMap) (k k' : String) (v : Record) (h : k' ≠ k) :
    mapGet (mapSet m k v) k' = mapGet m k' := by
  induction m with
  | nil => simp [mapSet, mapGet, beq_iff_eq, Ne.symm h]
  | cons p m ih =>
    by_cases hp : p.1 = k
    · subst hp
      simp [mapSet, mapGet, beq_iff_eq, Ne.symm h]
    · simp only [mapSet, beq_iff_eq, if_neg hp, mapGet]
      by_cases hp2 : p.1 = k'
      · simp [hp2]
      · simp only [beq_iff_eq, if_neg hp2]
        exact ih

theorem mapKeys_mapSet_mem (m : IdMap) (k : String) (v : Record)
    (h : k ∈ mapKeys m) : mapKeys (mapSet m k v) = mapKeys m := by
  induction m with
  | nil => simp [mapKeys] at h
  | cons p m ih =>
    by_cases hp : p.1 = k
    · simp [mapSet, mapKeys, hp]
    · have h2 : k ∈ mapKeys m := by
        simp only [mapKeys, List.map_cons, List.mem_cons] at h
        rcases h with h | h
        · exact absurd h.symm hp
        · exact h
      simp only [mapSet, beq_iff_eq, if_neg hp, mapKeys, List.map_cons]
      have h3 := ih h2
      simp only [mapKeys] at h3
      rw [h3]

theorem mapSet_notMem (m : IdMap) (k : String) (v : Record)
    (h : k ∉ mapKeys m) : mapSet m k v = m ++ [(k, v)] := by
  induction m with
  | nil => simp [mapSet]
  | cons p m ih =>
    simp only [mapKeys, List.map_cons, List.mem_cons, not_or] at h
    have hne : p.1 ≠ k := fun hp => h.1 hp.symm
    simp only [mapSet, beq_iff_eq, if_neg hne, List.cons_append]
    rw [ih h.2]

theorem mapGet_eq_none_iff (m : IdMap) (k : String) :
    mapGet m k = none ↔ k ∉ mapKeys m := by
  induction m with
  | nil => simp [mapGet, mapKeys]
  | cons p m ih =>
    by_cases hp : p.1 = k
    · simp [mapGet, mapKeys, hp]
    · simp [mapGet, mapKeys, hp, beq_iff_eq, ih, Ne.symm hp]

theorem mapGet_isSome_of_mem (m : IdMap) (k : String) (h : k ∈ mapKeys m) :
    ∃ v, mapGet m k = some v := by
  rcases hv : mapGet m k with _ | v
  · exact absurd ((mapGet_eq_none_iff m k).mp hv) (not_not_intro h)
  · exact ⟨v, rfl⟩

theorem mapGet_some_mem (m : IdMap) (k : String) (v : Record)
    (h : mapGet m k = some v) : (k, v) ∈ m := by
  induction m with
  | nil => simp [mapGet] at h
  | cons p m ih =>
    rcases p with ⟨a, b⟩
    by_cases hp : a = k
    · subst hp
      simp only [mapGet, beq_iff_eq, if_pos rfl] at h
      cases h
      exact List.mem_cons_self _ _
    · simp only [mapGet, beq_iff_eq, if_neg hp] at h
      exact List.mem_cons_of_mem _ (ih h)

theorem mapGet_id_eq (m : IdMap) (k : String) (v : Record)
    (hc : KeyCoherent m) (h : mapGet m k = some v) : v.id = k :=
  (hc _ (mapGet_some_mem m k v h)).symm

theorem keyCoherent_mapSet (m : IdMap) (v : Record) (hc : KeyCoherent m) :
    KeyCoherent (mapSet m v.id v) := by
  induction m with
  | nil =>
    intro p hp
    simp only [mapSet, List.mem_singleton] at hp
    simp [hp]
  | cons q m ih =>
    intro p hp
    by_cases hq : q.1 = v.id
    · simp only [mapSet, beq_iff_eq, if_pos hq, List.mem_cons] at hp
      rcases hp with hp | hp
      · simp [hp]
      · exact hc p (List.mem_cons_of_mem _ hp)
    · simp only [mapSet, beq_iff_eq, if_neg hq, List.mem_cons] at hp
      rcases hp with hp | hp
      · exact hc p (hp ▸ List.mem_cons_self _ _)
      · exact ih (fun r hr => hc r (List.mem_cons_of_mem _ hr)) p hp

theorem nodupKeys_mapSet (m : IdMap) (k : String) (v : Record)
    (h : (mapKeys m).Nodup) : (mapKeys (mapSet m k v)).Nodup := by
  by_cases hk : k ∈ mapKeys m
  · rw [mapKeys_mapSet_mem m k v hk]; exact h
  · rw [mapSet_notMem m k v hk]
    simpa [mapKeys, List.nodup_append] using And.intro h hk

/-- `find?` over the values by id agrees with `mapGet` on key-coherent maps. -/
theorem find_values_eq_mapGet (m : IdMap) (k : String) (hc : KeyCoherent m) :
    (mapValues m).find? (fun r => r.id == k) = mapGet m k := by
  induction m with
  | nil => simp [mapValues, mapGet]
  | cons p m ih =>
    have hid : p.1 = p.2.id := hc p (List.mem_cons_self _ _)
    by_cases hp : p.1 = k
    · simp [mapValues, mapGet, List.find?, hp, ← hid]
    · have : (p.2.id == k) = false := by
        simp [beq_iff_eq, ← hid, hp]
      simp only [mapValues, List.map_cons, List.find?, this, mapGet, beq_iff_eq, if_neg hp]
      exact ih (fun r hr => hc r (List.mem_cons_of_mem _ hr))

/-! ## Lemmas about seeding -/

theorem seedMap_go (l : List Record) (i : String) :
    ∀ m : IdMap,
      mapGet (l.foldl (fun m it => mapSet m it.id it) m) i =
        l.foldl (fun acc a => if a.id == i then some a else acc) (mapGet m i) := by
  induction l with
  | nil => intro m; rfl
  | cons a l ih =>
    intro m
    simp only [List.foldl_cons]
    rw [ih (mapSet m a.id a)]
    by_cases h : a.id = i
    · subst h
      rw [mapGet_mapSet_self]
      simp
    · rw [mapGet_mapSet_ne m a.id i a (Ne.symm h)]
      simp [beq_iff_eq, h]

/-- `mapGet` after the seeding loop: the last occurrence of the id wins. -/
theorem mapGet_seedMap (l : List Record) (i : String) :
    mapGet (seedMap l) i =
      l.foldl (fun acc a => if a.id == i then some a else acc) none := by
  simpa [mapGet] using seedMap_go l i []

theorem foldl_mapSet_append (l : List Record) :
    ∀ m : IdMap, (l.map Record.id).Nodup → (∀ a ∈ l, a.id ∉ mapKeys m) →
      l.foldl (fun m it => mapSet m it.id it) m = m ++ l.map (fun a => (a.id, a)) := by
  induction l with
  | nil => intro m _ _; simp
  | cons a l ih =>
    intro m hnd hout
    simp only [List.map_cons, List.nodup_cons] at hnd
    simp only [List.foldl_cons]
    rw [mapSet_notMem m a.id a (hout a (List.mem_cons_self _ _))]
    rw [ih (m ++ [(a.id, a)]) hnd.2]
    · simp
    · intro b hb
      simp only [mapKeys, List.map_append, List.mem_append, List.map_cons, not_or]
      constructor
      · exact hout b (List.mem_cons_of_mem _ hb)
      · simp only [List.map_nil, List.mem_singleton]
        intro hba
        exact hnd.1 (hba ▸ List.mem_map_of_mem Record.id hb)

/-- With pairwise-distinct local ids, seeding builds the evident map. -/
theorem seedMap_eq_of_nodup (l : List Record) (h : (l.map Record.id).Nodup) :
    seedMap l = l.map (fun a => (a.id, a)) := by
  simpa [seedMap] using foldl_mapSet_append l [] h (by simp [mapKeys])

theorem keyCoherent_seedMap (l : List Record) : KeyCoherent (seedMap l) := by
  have go : ∀ m : IdMap, KeyCoherent m →
      KeyCoherent (l.foldl (fun m it => mapSet m it.id it) m) := by
    induction l with
    | nil => intro m hm; exact hm
    | cons a l ih =>
      intro m hm
      exact ih _ (keyCoherent_mapSet m a hm)
  exact go [] (by intro p hp; simp at hp)

theorem nodupKeys_seedMap (l : List Record) : (mapKeys (seedMap l)).Nodup := by
  have go : ∀ m : IdMap, (mapKeys m).Nodup →
      (mapKeys (l.foldl (fun m it => mapSet m it.id it) m)).Nodup := by
    induction l with
    | nil => intro m hm; exact hm
    | cons a l ih =>
      intro m hm
      exact ih _ (nodupKeys_mapSet m a.id a hm)
  exact go [] (by simp [mapKeys])

/-- Ids of the values are exactly the keys on key-coherent maps. -/
theorem values_ids_eq_keys (m : IdMap) (hc : KeyCoherent m) :
    (mapValues m).map Record.id = mapKeys m := by
  induction m with
  | nil => rfl
  | cons p m ih =>
    have hid : p.1 = p.2.id := hc p (List.mem_cons_self _ _)
    simp only [mapValues, mapKeys, List.map_cons, List.map_map]
    rw [← hid]
    have := ih (fun r hr => hc r (List.mem_cons_of_mem _ hr))
    simp only [mapValues, mapKeys, List.map_map] at this
    rw [this]

/-! ## Lemmas about the remote loop -/

/-- The remote loop's map component does not depend on the flag. -/
theorem remFlagStep_fst (parse : String → Option Int) (acc : IdMap × Bool) (r : Record) :
    (remFlagStep parse acc r).1 = remStep parse acc.1 r := by
  unfold remFlagStep remStep
  rcases mapGet acc.1 r.id with _ | l
  · rfl
  · by_cases h1 : jsGt (tOf parse r) (tOf parse l) = true
    · simp [h1]
    · by_cases h2 : jsGt (tOf parse l) (tOf parse r) = true <;>
        simp [h1, h2]

theorem foldl_remFlagStep_fst (parse : String → Option Int) (rs : List Record) :
    ∀ acc : IdMap × Bool, (rs.foldl (remFlagStep parse) acc).1 = remMap parse acc.1 rs := by
  induction rs with
  | nil => intro acc; rfl
  | cons b rs ih =>
    intro acc
    simp only [List.foldl_cons, remMap] at ih ⊢
    rw [ih (remFlagStep parse acc b), remFlagStep_fst]

/-- The merged list is the value list of the remote loop's final map. -/
theorem mergeArrays_loc_eq (parse : String → Option Int) (l r : List Record) :
    (mergeArrays parse l r).loc = mapValues (remMap parse (seedMap l) r) := by
  show mapValues (List.foldl (remFlagStep parse) (seedMap l, false) r).1 = _
  rw [foldl_remFlagStep_fst]

theorem keyCoherent_remStep (parse : String → Option Int) (m : IdMap) (b : Record)
    (hc : KeyCoherent m) : KeyCoherent (remStep parse m b) := by
  unfold remStep
  rcases mapGet m b.id with _ | l
  · exact keyCoherent_mapSet m b hc
  · by_cases h : jsGt (tOf parse b) (tOf parse l) = true <;>
      simp [h, keyCoherent_mapSet m b hc, hc]

theorem keyCoherent_remMap (parse : String → Option Int) (rs : List Record) :
    ∀ m : IdMap, KeyCoherent m → KeyCoherent (remMap parse m rs) := by
  induction rs with
  | nil => intro m hm; exact hm
  | cons b rs ih =>
    intro m hm
    exact ih _ (keyCoherent_remStep parse m b hm)

theorem nodupKeys_remStep (parse : String → Option Int) (m : IdMap) (b : Record)
    (h : (mapKeys m).Nodup) : (mapKeys (remStep parse m b)).Nodup := by
  unfold remStep
  rcases mapGet m b.id with _ | l
  · exact nodupKeys_mapSet m b.id b h
  · by_cases hg : jsGt (tOf parse b) (tOf parse l) = true <;>
      simp [hg, nodupKeys_mapSet m b.id b h, h]

theorem nodupKeys_remMap (parse : String → Option Int) (rs : List Record) :
    ∀ m : IdMap, (mapKeys m).Nodup → (mapKeys (remMap parse m rs)).Nodup := by
  induction rs with
  | nil => intro m hm; exact hm
  | cons b rs ih =>
    intro m hm
    exact ih _ (nodupKeys_remStep parse m b hm)

theorem mapKeys_remStep_of_mem (parse : String → Option Int) (m : IdMap) (b : Record)
    (h : b.id ∈ mapKeys m) : mapKeys (remStep parse m b) = mapKeys m := by
  unfold remStep
  rcases hg : mapGet m b.id with _ | l
  · exact absurd ((mapGet_eq_none_iff m b.id).mp hg) (not_not_intro h)
  · by_cases hgt : jsGt (tOf parse b) (tOf parse l) = true <;>
      simp [hgt, mapKeys_mapSet_mem m b.id b h]

/-- Keys after the remote loop: the old keys followed by the ids of the
genuinely new remote records, assuming remote ids are pairwise distinct. -/
theorem mapKeys_remMap (parse : String → Option Int) (rs : List Record) :
    ∀ m : IdMap, (rs.map Record.id).Nodup →
      mapKeys (remMap parse m rs) =
        mapKeys m ++ (rs.filter (fun b => !decide (b.id ∈ mapKeys m))).map Record.id := by
  induction rs with
  | nil => intro m _; simp [remMap]
  | cons b rs ih =>
    intro m hnd
    simp only [List.map_cons, List.nodup_cons] at hnd
    have hrw : remMap parse m (b :: rs) = remMap parse (remStep parse m b) rs := rfl
    by_cases hmem : b.id ∈ mapKeys m
    · have hstep : mapKeys (remStep parse m b) = mapKeys m :=
        mapKeys_remStep_of_mem parse m b hmem
      have hih := ih (remStep parse m b) hnd.2
      rw [hrw, hih, hstep, List.filter_cons, if_neg (by simp [hmem])]
    · have hnone : mapGet m b.id = none := (mapGet_eq_none_iff m b.id).mpr hmem
      have hstep : remStep parse m b = m ++ [(b.id, b)] := by
        unfold remStep
        rw [hnone, mapSet_notMem m b.id b hmem]
      have hih := ih (remStep parse m b) hnd.2
      rw [hrw, hih, hstep]
      have hkeys : mapKeys (m ++ [(b.id, b)]) = mapKeys m ++ [b.id] := by
        simp [mapKeys]
      rw [hkeys]
      have hfeq : List.filter (fun c => !decide (c.id ∈ mapKeys m ++ [b.id])) rs =
          List.filter (fun c => !decide (c.id ∈ mapKeys m)) rs := by
        apply List.filter_congr
        intro c hc
        have hne : c.id ≠ b.id := fun hcb =>
          hnd.1 (hcb ▸ List.mem_map_of_mem Record.id hc)
        simp [List.mem_append, hne]
      rw [hfeq, List.filter_cons, if_pos (by simp [hmem])]
      simp

/-- Conflict resolution of one id against the whole remote list: the first
remote record with this id replaces the current one iff it is strictly
newer. -/
def pickR (parse : String → Option Int) (rs : List Record) (v : Record) : Record :=
  match rs.find? (fun b => b.id == v.id) with
  | none => v
  | some b => if jsGt (tOf parse b) (tOf parse v) then b else v

theorem remStep_of_none (parse : String → Option Int) (m : IdMap) (b : Record)
    (h : mapGet m b.id = none) : remStep parse m b = mapSet m b.id b := by
  simp [remStep, h]

theorem remStep_of_some_gt (parse : String → Option Int) (m : IdMap) (b l : Record)
    (h : mapGet m b.id = some l) (hgt : jsGt (tOf parse b) (tOf parse l) = true) :
    remStep parse m b = mapSet m b.id b := by
  simp [remStep, h, hgt]

theorem remStep_of_some_le (parse : String → Option Int) (m : IdMap) (b l : Record)
    (h : mapGet m b.id = some l) (hgt : ¬jsGt (tOf parse b) (tOf parse l) = true) :
    remStep parse m b = m := by
  simp [remStep, h, hgt]

/-- A step about a different id does not change what the map holds at `i`. -/
theorem mapGet_remStep_ne (parse : String → Option Int) (m : IdMap) (b : Record)
    (i : String) (hne : b.id ≠ i) : mapGet (remStep parse m b) i = mapGet m i := by
  rcases hg : mapGet m b.id with _ | l
  · rw [remStep_of_none parse m b hg, mapGet_mapSet_ne m b.id i b (Ne.symm hne)]
  · by_cases hgt : jsGt (tOf parse b) (tOf parse l) = true
    · rw [remStep_of_some_gt parse m b l hg hgt, mapGet_mapSet_ne m b.id i b (Ne.symm hne)]
    · rw [remStep_of_some_le parse m b l hg hgt]

theorem find_eq_none_of_not_mem_ids (rs : List Record) (i : String)
    (h : i ∉ rs.map Record.id) : rs.find? (fun b => b.id == i) = none := by
  induction rs with
  | nil => rfl
  | cons b rs ih =>
    simp only [List.map_cons, List.mem_cons, not_or] at h
    have hb : (b.id == i) = false := by
      simp only [beq_eq_false_iff_ne, ne_eq]
      exact fun hbi => h.1 hbi.symm
    simp only [List.find?, hb]
    exact ih h.2

theorem pickR_self (parse : String → Option Int) (rs : List Record) (v : Record)
    (h : v.id ∉ rs.map Record.id) : pickR parse rs v = v := by
  unfold pickR
  rw [find_eq_none_of_not_mem_ids rs v.id h]

/-- `mapGet` after the remote loop, for an id already in the map. -/
theorem mapGet_remMap_of_some (parse : String → Option Int) (rs : List Record) :
    ∀ (m : IdMap) (i : String) (v : Record), (rs.map Record.id).Nodup → KeyCoherent m →
      mapGet m i = some v →
      mapGet (remMap parse m rs) i = some (pickR parse rs v) := by
  induction rs with
  | nil =>
    intro m i v _ _ hv
    simpa [remMap, pickR] using hv
  | cons b rs ih =>
    intro m i v hnd hc hv
    simp only [List.map_cons, List.nodup_cons] at hnd
    have hvid : v.id = i := mapGet_id_eq m i v hc hv
    have hrw : remMap parse m (b :: rs) = remMap parse (remStep parse m b) rs := rfl
    rw [hrw]
    by_cases hb : b.id = i
    · -- the head remote record targets this id
      have hget : mapGet m b.id = some v := hb ▸ hv
      have hpick : pickR parse (b :: rs) v =
          if jsGt (tOf parse b) (tOf parse v) then b else v := by
        unfold pickR
        simp [List.find?, beq_iff_eq, hb, hvid]
      by_cases hgt : jsGt (tOf parse b) (tOf parse v) = true
      · have hget2 : mapGet (mapSet m b.id b) i = some b := hb ▸ mapGet_mapSet_self m b.id b
        have hres := ih (mapSet m b.id b) i b hnd.2
          (hb ▸ keyCoherent_mapSet m b hc) hget2
        rw [remStep_of_some_gt parse m b v hget hgt, hres, hpick, if_pos hgt,
          pickR_self parse rs b (fun hmem => hnd.1 hmem)]
      · have hres := ih m i v hnd.2 hc hv
        rw [remStep_of_some_le parse m b v hget hgt, hres, hpick, if_neg hgt]
        have hv_notin : v.id ∉ List.map Record.id rs := by
          rw [hvid, ← hb]
          exact hnd.1
        rw [pickR_self parse rs v hv_notin]
    · -- the head remote record is about a different id
      have hstepget : mapGet (remStep parse m b) i = some v := by
        rw [mapGet_remStep_ne parse m b i hb]
        exact hv
      have hres := ih (remStep parse m b) i v hnd.2
        (keyCoherent_remStep parse m b hc) hstepget
      rw [hres]
      have hpp : pickR parse (b :: rs) v = pickR parse rs v := by
        unfold pickR
        have hbne : (b.id == v.id) = false := by
          simp only [beq_eq_false_iff_ne, ne_eq, hvid]
          exact hb
        simp [List.find?, hbne]
      rw [hpp]

/-- `mapGet` after the remote loop, for an id absent from the map but
present in the remote list. -/
theorem mapGet_remMap_of_none_found (parse : String → Option Int) (rs : List Record) :
    ∀ (m : IdMap) (b : Record), (rs.map Record.id).Nodup → KeyCoherent m →
      mapGet m b.id = none → b ∈ rs →
      mapGet (remMap parse m rs) b.id = some b := by
  induction rs with
  | nil => intro m b _ _ _ hmem; cases hmem
  | cons c rs ih =>
    intro m b hnd hc hnone hmem
    simp only [List.map_cons, List.nodup_cons] at hnd
    have hrw : remMap parse m (c :: rs) = remMap parse (remStep parse m c) rs := rfl
    rw [hrw]
    by_cases hcb : c.id = b.id
    · -- `c` is the (unique) remote record with this id, so b = c
      have hbc : b = c := by
        rcases List.mem_cons.mp hmem with h1 | h1
        · exact h1
        · exact absurd (hcb ▸ List.mem_map_of_mem Record.id h1) hnd.1
      subst hbc
      have hget2 : mapGet (mapSet m b.id b) b.id = some b := mapGet_mapSet_self m b.id b
      have hres := mapGet_remMap_of_some parse rs (mapSet m b.id b) b.id b hnd.2
        (keyCoherent_mapSet m b hc) hget2
      rw [remStep_of_none parse m b hnone, hres,
        pickR_self parse rs b (fun hm => hnd.1 hm)]
    · have hmem2 : b ∈ rs := by
        rcases List.mem_cons.mp hmem with h1 | h1
        · exact absurd (congrArg Record.id h1).symm hcb
        · exact h1
      have hstepnone : mapGet (remStep parse m c) b.id = none := by
        rw [mapGet_remStep_ne parse m c b.id hcb]
        exact hnone
      exact ih (remStep parse m c) b hnd.2 (keyCoherent_remStep parse m c hc)
        hstepnone hmem2

/-- `mapGet` after the remote loop, for an id absent everywhere. -/
theorem mapGet_remMap_of_none_notin (parse : String → Option Int) (rs : List Record) :
    ∀ (m : IdMap) (i : String), mapGet m i = none → i ∉ rs.map Record.id →
      mapGet (remMap parse m rs) i = none := by
  induction rs with
  | nil => intro m i h _; exact h
  | cons b rs ih =>
    intro m i hnone hnotin
    simp only [List.map_cons, List.mem_cons, not_or] at hnotin
    have hrw : remMap parse m (b :: rs) = remMap parse (remStep parse m b) rs := rfl
    rw [hrw]
    have hstepnone : mapGet (remStep parse m b) i = none := by
      rw [mapGet_remStep_ne parse m b i (fun h => hnotin.1 h.symm)]
      exact hnone
    exact ih (remStep parse m b) i hstepnone hnotin.2

/-! ## Auxiliary list lemmas for the merge theorems -/

theorem mapGet_assocOf (L : List Record) (i : String) :
    mapGet (L.map (fun a => (a.id, a))) i = L.find? (fun r => r.id == i) := by
  induction L with
  | nil => rfl
  | cons a L ih =>
    by_cases h : a.id = i
    · simp [mapGet, List.find?, beq_iff_eq, h]
    · have hb : (a.id == i) = false := by simp [beq_eq_false_iff_ne, h]
      simp only [List.map_cons, mapGet, hb, List.find?]
      simpa using ih

theorem find_eq_self_of_nodup (L : List Record) (a : Record)
    (hnd : (L.map Record.id).Nodup) (ha : a ∈ L) :
    L.find? (fun r => r.id == a.id) = some a := by
  induction L with
  | nil => cases ha
  | cons c L ih =>
    simp only [List.map_cons, List.nodup_cons] at hnd
    rcases List.mem_cons.mp ha with h1 | h1
    · subst h1
      simp [List.find?]
    · have hcne : (c.id == a.id) = false := by
        simp only [beq_eq_false_iff_ne, ne_eq]
        intro hca
        exact hnd.1 (hca ▸ List.mem_map_of_mem Record.id h1)
      simp only [List.find?, hcne]
      exact ih hnd.2 h1

theorem countP_beq_of_nodup (K : List String) (i : String) (h : K.Nodup) :
    K.countP (fun x => x == i) = if i ∈ K then 1 else 0 := by
  induction K with
  | nil => simp
  | cons k K ih =>
    simp only [List.nodup_cons] at h
    rw [List.countP_cons]
    by_cases hk : k = i
    · subst hk
      rw [ih h.2, if_neg h.1, if_pos (List.mem_cons_self _ _)]
      simp
    · rw [ih h.2]
      by_cases hi : i ∈ K
      · rw [if_pos hi, if_pos (List.mem_cons_of_mem _ hi)]
        simp [beq_iff_eq, hk]
      · have hik : i ∉ k :: K := by
          intro hik
          rcases List.mem_cons.mp hik with h2 | h2
          · exact hk h2.symm
          · exact hi h2
        rw [if_neg hi, if_neg hik]
        simp [beq_iff_eq, hk]

/-- The final map of `mergeArrays parse A B`. -/
def mergedMap (parse : String → Option Int) (A B : List Record) : IdMap :=
  remMap parse (seedMap A) B

theorem keyCoherent_mergedMap (parse : String → Option Int) (A B : List Record) :
    KeyCoherent (mergedMap parse A B) :=
  keyCoherent_remMap parse B (seedMap A) (keyCoherent_seedMap A)

theorem nodupKeys_mergedMap (parse : String → Option Int) (A B : List Record) :
    (mapKeys (mergedMap parse A B)).Nodup :=
  nodupKeys_remMap parse B (seedMap A) (nodupKeys_seedMap A)

theorem mergeArrays_loc_values (parse : String → Option Int) (A B : List Record) :
    (mergeArrays parse A B).loc = mapValues (mergedMap parse A B) :=
  mergeArrays_loc_eq parse A B

theorem mapKeys_seedMap_of_nodup (A : List Record) (hA : (A.map Record.id).Nodup) :
    mapKeys (seedMap A) = A.map Record.id := by
  rw [seedMap_eq_of_nodup A hA]
  simp [mapKeys]

theorem mapGet_seedMap_of_nodup (A : List Record) (i : String)
    (hA : (A.map Record.id).Nodup) :
    mapGet (seedMap A) i = A.find? (fun r => r.id == i) := by
  rw [seedMap_eq_of_nodup A hA, mapGet_assocOf]

/-- Ids of the merged list, with pairwise-distinct input ids: the local
ids followed by the genuinely new remote ids. -/
theorem mergeArrays_ids (parse : String → Option Int) (A B : List Record)
    (hA : (A.map Record.id).Nodup) (hB : (B.map Record.id).Nodup) :
    (mergeArrays parse A B).loc.map Record.id =
      A.map Record.id ++
        (B.filter (fun b => !decide (b.id ∈ A.map Record.id))).map Record.id := by
  rw [mergeArrays_loc_values,
    values_ids_eq_keys _ (keyCoherent_mergedMap parse A B)]
  unfold mergedMap
  rw [mapKeys_remMap parse B (seedMap A) hB, mapKeys_seedMap_of_nodup A hA]

theorem mergeArrays_find_of_mem (parse : String → Option Int) (A B : List Record)
    (hA : (A.map Record.id).Nodup) (hB : (B.map Record.id).Nodup)
    (a : Record) (ha : a ∈ A) :
    (mergeArrays parse A B).loc.find? (fun r => r.id == a.id) =
      some (pickR parse B a) := by
  rw [mergeArrays_loc_values,
    find_values_eq_mapGet _ _ (keyCoherent_mergedMap parse A B)]
  unfold mergedMap
  have hseed : mapGet (seedMap A) a.id = some a := by
    rw [mapGet_seedMap_of_nodup A a.id hA]
    exact find_eq_self_of_nodup A a hA ha
  exact mapGet_remMap_of_some parse B (seedMap A) a.id a hB
    (keyCoherent_seedMap A) hseed

/-- C1: with pairwise-distinct ids per input array, the merged array has
exactly one record per id of the union; for an id in both inputs the
remote record is kept iff its `updatedAt` parses strictly newer,
otherwise (ties, older, or unparseable timestamps) the local record is
kept; ids present on one side only keep that record. -/
theorem c1_mergeArrays_lww (parse : String → Option Int) (A B : List Record)
    (hA : (A.map Record.id).Nodup) (hB : (B.map Record.id).Nodup) :
    (∀ i : String,
      (mergeArrays parse A B).loc.countP (fun r => r.id == i) =
        if i ∈ A.map Record.id ∨ i ∈ B.map Record.id then 1 else 0) ∧
    (∀ a ∈ A, ∀ b ∈ B, a.id = b.id →
      (mergeArrays parse A B).loc.find? (fun r => r.id == a.id) =
        some (if jsGt (tOf parse b) (tOf parse a) then b else a)) ∧
    (∀ a ∈ A, a.id ∉ B.map Record.id →
      (mergeArrays parse A B).loc.find? (fun r => r.id == a.id) = some a) ∧
    (∀ b ∈ B, b.id ∉ A.map Record.id →
      (mergeArrays parse A B).loc.find? (fun r => r.id == b.id) = some b) := by
  refine ⟨?_, ?_, ?_, ?_⟩
  · intro i
    have hkeys := mergeArrays_ids parse A B hA hB
    have hnd : ((mergeArrays parse A B).loc.map Record.id).Nodup := by
      rw [mergeArrays_loc_values,
        values_ids_eq_keys _ (keyCoherent_mergedMap parse A B)]
      exact nodupKeys_mergedMap parse A B
    have hcount : (mergeArrays parse A B).loc.countP (fun r => r.id == i) =
        ((mergeArrays parse A B).loc.map Record.id).countP (fun x => x == i) := by
      rw [List.countP_map]
      rfl
    rw [hcount, countP_beq_of_nodup _ i hnd, hkeys]
    by_cases hiA : i ∈ A.map Record.id
    · rw [if_pos (by simp [hiA]), if_pos (Or.inl hiA)]
    · by_cases hiB : i ∈ B.map Record.id
      · have : i ∈ (B.filter (fun b => !decide (b.id ∈ A.map Record.id))).map Record.id := by
          rcases List.mem_map.mp hiB with ⟨b, hb, hbi⟩
          refine List.mem_map.mpr ⟨b, List.mem_filter.mpr ⟨hb, by simp [hbi, hiA]⟩, hbi⟩
        rw [if_pos (List.mem_append.mpr (Or.inr this)), if_pos (Or.inr hiB)]
      · have hnot : i ∉ A.map Record.id ++
            (B.filter (fun b => !decide (b.id ∈ A.map Record.id))).map Record.id := by
          intro hmem
          rcases List.mem_append.mp hmem with h1 | h1
          · exact hiA h1
          · rcases List.mem_map.mp h1 with ⟨b, hb, hbi⟩
            exact hiB (hbi ▸ List.mem_map_of_mem Record.id (List.mem_filter.mp hb).1)
        rw [if_neg hnot, if_neg (by simp [hiA, hiB])]
  · intro a ha b hb hab
    rw [mergeArrays_find_of_mem parse A B hA hB a ha]
    have hfind : B.find? (fun r => r.id == a.id) = some b := by
      rw [hab]
      exact find_eq_self_of_nodup B b hB hb
    unfold pickR
    rw [hfind]
  · intro a ha hnotB
    rw [mergeArrays_find_of_mem parse A B hA hB a ha,
      pickR_self parse B a hnotB]
  · intro b hb hnotA
    rw [mergeArrays_loc_values,
      find_values_eq_mapGet _ _ (keyCoherent_mergedMap parse A B)]
    unfold mergedMap
    have hseed : mapGet (seedMap A) b.id = none := by
      rw [mapGet_seedMap_of_nodup A b.id hA]
      exact find_eq_none_of_not_mem_ids A b.id hnotA
    exact mapGet_remMap_of_none_found parse B (seedMap A) b hB
      (keyCoherent_seedMap A) hseed hb

/-- Witness for C1 at a concrete input: local `x` is newer than remote
`x`, remote additionally holds `y`. -/
theorem c1_mergeArrays_lww_witness :
    (mergeArrays parseLen
        [⟨"x", some "ttttt", "A"⟩]
        [⟨"x", some "ttt", "B"⟩, ⟨"y", some "tt", "C"⟩]).loc.countP
          (fun r => r.id == "y") = 1 ∧
    (mergeArrays parseLen
        [⟨"x", some "ttttt", "A"⟩]
        [⟨"x", some "ttt", "B"⟩, ⟨"y", some "tt", "C"⟩]).loc.find?
          (fun r => r.id == "x") = some ⟨"x", some "ttttt", "A"⟩ := by
  have h := c1_mergeArrays_lww parseLen
    [⟨"x", some "ttttt", "A"⟩]
    [⟨"x", some "ttt", "B"⟩, ⟨"y", some "tt", "C"⟩]
    (by simp) (by simp)
  constructor
  · exact (h.1 "y").trans (by rfl)
  · exact (h.2.1 ⟨"x", some "ttttt", "A"⟩ (by simp) ⟨"x", some "ttt", "B"⟩
      (by simp) rfl).trans (by rfl)

/-! ## C10: structural invariants of the merged array -/

theorem mem_mapSet (m : IdMap) (k : String) (v : Record) (p : String × Record)
    (h : p ∈ mapSet m k v) : p ∈ m ∨ p = (k, v) := by
  induction m with
  | nil =>
    simp only [mapSet, List.mem_singleton] at h
    exact Or.inr h
  | cons q m ih =>
    by_cases hq : q.1 = k
    · simp only [mapSet, beq_iff_eq, if_pos hq, List.mem_cons] at h
      rcases h with h | h
      · exact Or.inr h
      · exact Or.inl (List.mem_cons_of_mem _ h)
    · simp only [mapSet, beq_iff_eq, if_neg hq, List.mem_cons] at h
      rcases h with h | h
      · exact Or.inl (h ▸ List.mem_cons_self _ _)
      · rcases ih h with h2 | h2
        · exact Or.inl (List.mem_cons_of_mem _ h2)
        · exact Or.inr h2

theorem mem_seed_fold (L : List Record) :
    ∀ (m : IdMap) (p : String × Record),
      p ∈ L.foldl (fun m it => mapSet m it.id it) m → p ∈ m ∨ p.2 ∈ L := by
  induction L with
  | nil => intro m p h; exact Or.inl h
  | cons a L ih =>
    intro m p h
    rcases ih (mapSet m a.id a) p h with h2 | h2
    · rcases mem_mapSet m a.id a p h2 with h3 | h3
      · exact Or.inl h3
      · exact Or.inr (h3 ▸ List.mem_cons_self _ _)
    · exact Or.inr (List.mem_cons_of_mem _ h2)

theorem mem_remMap (parse : String → Option Int) (rs : List Record) :
    ∀ (m : IdMap) (p : String × Record),
      p ∈ remMap parse m rs → p ∈ m ∨ p.2 ∈ rs := by
  induction rs with
  | nil => intro m p h; exact Or.inl h
  | cons b rs ih =>
    intro m p h
    have hrw : remMap parse m (b :: rs) = remMap parse (remStep parse m b) rs := rfl
    rw [hrw] at h
    rcases ih (remStep parse m b) p h with h2 | h2
    · have hsub : p ∈ remStep parse m b → p ∈ m ∨ p.2 ∈ b :: rs := by
        intro hp
        rcases hg : mapGet m b.id with _ | l
        · rw [remStep_of_none parse m b hg] at hp
          rcases mem_mapSet m b.id b p hp with h3 | h3
          · exact Or.inl h3
          · exact Or.inr (h3 ▸ List.mem_cons_self _ _)
        · by_cases hgt : jsGt (tOf parse b) (tOf parse l) = true
          · rw [remStep_of_some_gt parse m b l hg hgt] at hp
            rcases mem_mapSet m b.id b p hp with h3 | h3
            · exact Or.inl h3
            · exact Or.inr (h3 ▸ List.mem_cons_self _ _)
          · rw [remStep_of_some_le parse m b l hg hgt] at hp
            exact Or.inl hp
      exact hsub h2
    · exact Or.inr (List.mem_cons_of_mem _ h2)

/-- C10: the merged array has pairwise-distinct ids and every merged
record is one of the input records verbatim, even when the inputs contain
duplicate ids; during seeding the last occurrence of a duplicated local
id is the one the map retains. -/
theorem c10_mergeArrays_invariants (parse : String → Option Int) (A B : List Record) :
    ((mergeArrays parse A B).loc.map Record.id).Nodup ∧
    (∀ r ∈ (mergeArrays parse A B).loc, r ∈ A ∨ r ∈ B) ∧
    (∀ i : String,
      mapGet (seedMap A) i =
        A.foldl (fun acc a => if a.id == i then some a else acc) none) := by
  refine ⟨?_, ?_, ?_⟩
  · rw [mergeArrays_loc_values,
      values_ids_eq_keys _ (keyCoherent_mergedMap parse A B)]
    exact nodupKeys_mergedMap parse A B
  · intro r hr
    rw [mergeArrays_loc_values] at hr
    rcases List.mem_map.mp hr with ⟨p, hp, hpr⟩
    rcases mem_remMap parse B (seedMap A) p hp with h2 | h2
    · rcases mem_seed_fold A [] p h2 with h3 | h3
      · cases h3
      · exact Or.inl (hpr ▸ h3)
    · exact Or.inr (hpr ▸ h2)
  · exact mapGet_seedMap A

/-! ## C2: idempotence of reconciliation -/

theorem jsGt_irrefl (x : Option Int) : jsGt x x = false := by
  cases x <;> simp [jsGt]

theorem jsGt_step (b v w : Option Int) (h1 : jsGt b w = false) (h2 : jsGt v w = true) :
    jsGt b v = false := by
  cases b with
  | none => rfl
  | some xb =>
    cases v with
    | none => simp [jsGt] at h2
    | some xv =>
      cases w with
      | none => simp [jsGt] at h2
      | some xw =>
        simp only [jsGt, decide_eq_false_iff_not, not_lt, decide_eq_true_eq] at h1 h2 ⊢
        exact le_trans h1 (le_of_lt h2)

/-- During the remote loop the record held at a key is only ever replaced
by a strictly newer one. -/
theorem mapGet_remMap_mono (parse : String → Option Int) (rs : List Record) :
    ∀ (m : IdMap) (k : String) (v : Record), mapGet m k = some v →
      ∃ w, mapGet (remMap parse m rs) k = some w ∧
        (w = v ∨ jsGt (tOf parse w) (tOf parse v) = true) := by
  induction rs with
  | nil => intro m k v hv; exact ⟨v, hv, Or.inl rfl⟩
  | cons b rs ih =>
    intro m k v hv
    have hrw : remMap parse m (b :: rs) = remMap parse (remStep parse m b) rs := rfl
    rw [hrw]
    by_cases hb : b.id = k
    · subst hb
      rcases hg : mapGet m b.id with _ | l
      · rw [hg] at hv; cases hv
      · rw [hg] at hv
        cases hv
        by_cases hgt : jsGt (tOf parse b) (tOf parse v) = true
        · have hget2 : mapGet (mapSet m b.id b) b.id = some b := mapGet_mapSet_self m b.id b
          rcases ih (mapSet m b.id b) b.id b hget2 with ⟨w, hw, hcmp⟩
          rw [remStep_of_some_gt parse m b v hg hgt]
          refine ⟨w, hw, Or.inr ?_⟩
          rcases hcmp with h3 | h3
          · exact h3 ▸ hgt
          · cases hwv : jsGt (tOf parse w) (tOf parse v) with
            | true => rfl
            | false => exact absurd h3 (by simp [jsGt_step _ _ _ hwv hgt])
        · rw [remStep_of_some_le parse m b v hg hgt]
          exact ih m b.id v hg
    · have hstep : mapGet (remStep parse m b) k = some v := by
        rw [mapGet_remStep_ne parse m b k hb]
        exact hv
      exact ih (remStep parse m b) k v hstep

/-- After the remote loop, no remote record strictly beats the record the
final map holds at its id. -/
theorem remMap_no_beats (parse : String → Option Int) (rs : List Record) :
    ∀ (m : IdMap) (b : Record), b ∈ rs →
      ∃ v, mapGet (remMap parse m rs) b.id = some v ∧
        jsGt (tOf parse b) (tOf parse v) = false := by
  induction rs with
  | nil => intro m b hmem; cases hmem
  | cons c rs ih =>
    intro m b hmem
    have hrw : remMap parse m (c :: rs) = remMap parse (remStep parse m c) rs := rfl
    rw [hrw]
    rcases List.mem_cons.mp hmem with hbc | hmem2
    · -- b is the head: after its own step the held record is not beaten by b
      subst hbc
      have hheld : ∃ w, mapGet (remStep parse m b) b.id = some w ∧
          jsGt (tOf parse b) (tOf parse w) = false := by
        rcases hg : mapGet m b.id with _ | l
        · refine ⟨b, ?_, jsGt_irrefl _⟩
          rw [remStep_of_none parse m b hg]
          exact mapGet_mapSet_self m b.id b
        · by_cases hgt : jsGt (tOf parse b) (tOf parse l) = true
          · refine ⟨b, ?_, jsGt_irrefl _⟩
            rw [remStep_of_some_gt parse m b l hg hgt]
            exact mapGet_mapSet_self m b.id b
          · refine ⟨l, ?_, by simpa using hgt⟩
            rw [remStep_of_some_le parse m b l hg hgt]
            exact hg
      rcases hheld with ⟨w, hw, hnb⟩
      rcases mapGet_remMap_mono parse rs (remStep parse m b) b.id w hw with ⟨v, hv, hcmp⟩
      refine ⟨v, hv, ?_⟩
      rcases hcmp with h3 | h3
      · exact h3 ▸ hnb
      · exact jsGt_step _ _ _ hnb h3
    · exact ih (remStep parse m c) b hmem2

/-- A remote pass over a map that already dominates every remote record
leaves the map unchanged. -/
theorem remMap_id_of_dominated (parse : String → Option Int) (rs : List Record) :
    ∀ m : IdMap,
      (∀ b ∈ rs, ∃ v, mapGet m b.id = some v ∧
        jsGt (tOf parse b) (tOf parse v) = false) →
      remMap parse m rs = m := by
  induction rs with
  | nil => intro m _; rfl
  | cons b rs ih =>
    intro m hdom
    have hrw : remMap parse m (b :: rs) = remMap parse (remStep parse m b) rs := rfl
    rcases hdom b (List.mem_cons_self _ _) with ⟨v, hv, hnb⟩
    have hstep : remStep parse m b = m :=
      remStep_of_some_le parse m b v hv (by simp [hnb])
    rw [hrw, hstep]
    exact ih m (fun c hc => hdom c (List.mem_cons_of_mem _ hc))

theorem mergeArrays_nodup_ids (parse : String → Option Int) (A B : List Record) :
    ((mergeArrays parse A B).loc.map Record.id).Nodup := by
  rw [mergeArrays_loc_values,
    values_ids_eq_keys _ (keyCoherent_mergedMap parse A B)]
  exact nodupKeys_mergedMap parse A B

theorem mapValues_assocOf (L : List Record) :
    mapValues (L.map (fun a => (a.id, a))) = L := by
  induction L with
  | nil => rfl
  | cons a L ih => simp [mapValues] at ih ⊢; exact ih

/-- Re-merging the merged array against the same remote array changes
nothing. -/
theorem mergeArrays_idem (parse : String → Option Int) (A B : List Record) :
    (mergeArrays parse (mergeArrays parse A B).loc B).loc =
      (mergeArrays parse A B).loc := by
  set M := (mergeArrays parse A B).loc with hM
  have hnd : (M.map Record.id).Nodup := mergeArrays_nodup_ids parse A B
  have hdom : ∀ b ∈ B, ∃ v, mapGet (seedMap M) b.id = some v ∧
      jsGt (tOf parse b) (tOf parse v) = false := by
    intro b hb
    rcases remMap_no_beats parse B (seedMap A) b hb with ⟨v, hv, hnb⟩
    refine ⟨v, ?_, hnb⟩
    rw [mapGet_seedMap_of_nodup M b.id hnd]
    have := find_values_eq_mapGet (mergedMap parse A B) b.id
      (keyCoherent_mergedMap parse A B)
    rw [hM, mergeArrays_loc_values]
    rw [this]
    exact hv
  rw [mergeArrays_loc_values]
  unfold mergedMap
  rw [remMap_id_of_dominated parse B (seedMap M) hdom,
    seedMap_eq_of_nodup M hnd, mapValues_assocOf]

theorem find_pair_self_of_nodup (r : List (String × String)) (q : String × String)
    (hnd : (r.map Prod.fst).Nodup) (hq : q ∈ r) :
    r.find? (fun p => p.1 == q.1) = some q := by
  induction r with
  | nil => cases hq
  | cons c r ih =>
    simp only [List.map_cons, List.nodup_cons] at hnd
    rcases List.mem_cons.mp hq with h1 | h1
    · subst h1
      simp [List.find?]
    · have hcne : (c.1 == q.1) = false := by
        simp only [beq_eq_false_iff_ne, ne_eq]
        intro hca
        exact hnd.1 (hca ▸ List.mem_map_of_mem Prod.fst h1)
      simp only [List.find?, hcne]
      exact ih hnd.2 h1

/-- One key's override map in `spreadFields`. -/
def fieldOv (r : List (String × String)) (p : String × String) : String × String :=
  match r.find? (fun q => q.1 == p.1) with
  | some q => (p.1, q.2)
  | none => p

theorem spreadFields_eq (l r : List (String × String)) :
    spreadFields l r =
      l.map (fieldOv r) ++ r.filter (fun q => !(l.any (fun p => p.1 == q.1))) := rfl

theorem fieldOv_fst (r : List (String × String)) (p : String × String) :
    (fieldOv r p).1 = p.1 := by
  rcases hf : r.find? (fun q => q.1 == p.1) with _ | q <;> simp [fieldOv, hf]

theorem fieldOv_idem (r : List (String × String)) (p : String × String) :
    fieldOv r (fieldOv r p) = fieldOv r p := by
  rcases hf : r.find? (fun q => q.1 == p.1) with _ | q <;> simp [fieldOv, hf]

theorem fieldOv_self (r : List (String × String)) (q : String × String)
    (hnd : (r.map Prod.fst).Nodup) (hq : q ∈ r) : fieldOv r q = q := by
  unfold fieldOv
  rw [find_pair_self_of_nodup r q hnd hq]

theorem spreadFields_idem (l r : List (String × String))
    (hnd : (r.map Prod.fst).Nodup) :
    spreadFields (spreadFields l r) r = spreadFields l r := by
  rw [spreadFields_eq l r, spreadFields_eq]
  have hmap : (l.map (fieldOv r) ++
      r.filter (fun q => !(l.any (fun p => p.1 == q.1)))).map (fieldOv r) =
      l.map (fieldOv r) ++ r.filter (fun q => !(l.any (fun p => p.1 == q.1))) := by
    rw [List.map_append, List.map_map]
    congr 1
    · exact List.map_congr_left (fun p _ => fieldOv_idem r p)
    · have hpt : ∀ q ∈ r.filter (fun q => !(l.any (fun p => p.1 == q.1))),
          fieldOv r q = q := fun q hq =>
        fieldOv_self r q hnd (List.mem_filter.mp hq).1
      simpa using List.map_congr_left hpt
  rw [hmap]
  have hnil : r.filter (fun q =>
      !((l.map (fieldOv r) ++
        r.filter (fun q2 => !(l.any (fun p => p.1 == q2.1)))).any
          (fun p => p.1 == q.1))) = [] := by
    rw [List.filter_eq_nil_iff]
    intro q hq
    simp only [Bool.not_eq_true', Bool.not_eq_false]
    rw [List.any_append, Bool.or_eq_true]
    by_cases hl : l.any (fun p => p.1 == q.1) = true
    · rcases List.any_eq_true.mp hl with ⟨p, hp, hpq⟩
      have hfp : ((fieldOv r p).1 == q.1) = true := by rw [fieldOv_fst]; exact hpq
      exact Or.inl (List.any_eq_true.mpr ⟨fieldOv r p, List.mem_map_of_mem _ hp, hfp⟩)
    · refine Or.inr (List.any_eq_true.mpr ⟨q, ?_, by simp⟩)
      exact List.mem_filter.mpr ⟨hq, by simp [hl]⟩
  rw [hnil, List.append_nil]

theorem jsOverride_idem (l r : Option String) :
    jsOverride (jsOverride l r) r = jsOverride l r := by
  cases r <;> rfl

theorem spreadObj_idem (l r : ScalarObj) (hnd : r.WF) :
    spreadObj (spreadObj l r) r = spreadObj l r := by
  unfold spreadObj
  rw [jsOverride_idem, spreadFields_idem l.fields r.fields hnd]

/-- Snapshots of the same shape, in the sense of §4.3. -/
def sameShape : Snapshot → Snapshot → Prop
  | .arr _, .arr _ => True
  | .withItems _ _, .withItems _ _ => True
  | .scalar _, .scalar _ => True
  | _, _ => False

/-- C2: reconciling the merged result against the same remote snapshot
again reproduces the merged result, for snapshots of matching shape
(the well-formedness hypothesis states that the remote object's scalar
keys are pairwise distinct, as JS object keys always are). -/
theorem c2_reconcile_idem (parse : String → Option Int) (a b : Snapshot)
    (hs : sameShape a b) (hw : b.WF) :
    (mergeData parse (mergeData parse (some a) (some b)).loc (some b)).loc =
      (mergeData parse (some a) (some b)).loc := by
  cases a with
  | arr la =>
    cases b with
    | arr ra =>
      simp only [mergeData]
      rw [mergeArrays_idem]
    | withItems rm ri => exact absurd hs (by simp [sameShape])
    | scalar ro => exact absurd hs (by simp [sameShape])
  | withItems lm li =>
    cases b with
    | arr ra => exact absurd hs (by simp [sameShape])
    | withItems rm ri =>
      simp only [mergeData]
      rw [mergeArrays_idem, spreadObj_idem lm rm hw]
    | scalar ro => exact absurd hs (by simp [sameShape])
  | scalar lo =>
    cases b with
    | arr ra => exact absurd hs (by simp [sameShape])
    | withItems rm ri => exact absurd hs (by simp [sameShape])
    | scalar ro =>
      by_cases hgt : jsGt (snapTime parse (.scalar ro)) (snapTime parse (.scalar lo)) = true
      · simp [mergeData, hgt, jsGt_irrefl]
      · simp [mergeData, hgt]

/-- Witness for C2 at a concrete input: two object snapshots with
conflicting items and scalar fields. -/
theorem c2_reconcile_idem_witness :
    (mergeData parseLen
      (mergeData parseLen
        (some (.withItems ⟨some "tt", [("k", "va")]⟩ [⟨"x", some "ttttt", "A"⟩]))
        (some (.withItems ⟨some "ttt", [("k", "vb")]⟩ [⟨"x", some "ttt", "B"⟩]))).loc
      (some (.withItems ⟨some "ttt", [("k", "vb")]⟩ [⟨"x", some "ttt", "B"⟩]))).loc =
    (mergeData parseLen
      (some (.withItems ⟨some "tt", [("k", "va")]⟩ [⟨"x", some "ttttt", "A"⟩]))
      (some (.withItems ⟨some "ttt", [("k", "vb")]⟩ [⟨"x", some "ttt", "B"⟩]))).loc :=
  c2_reconcile_idem parseLen
    (.withItems ⟨some "tt", [("k", "va")]⟩ [⟨"x", some "ttttt", "A"⟩])
    (.withItems ⟨some "ttt", [("k", "vb")]⟩ [⟨"x", some "ttt", "B"⟩])
    (by trivial) (by simp [Snapshot.WF, ScalarObj.WF])

/-! ## Sync engine theorems (C3, C8) -/

/-- A benign dependency set: connected, folder configured, nothing throws,
no listeners. -/
def depsBase : SyncDeps where
  isConnectedR := .ok true
  isFolderConfiguredR := .ok true
  getLocalDataR := .ok (some (.arr []))
  getLastSyncR := .ok none
  fetchR := .ok ⟨none, none⟩
  setLocalDataR := .ok ()
  pushR := .ok ()
  setLastSyncR := .ok ()
  listeners := []
  now := "2025-01-01T00:00:00Z"

/-- Like `depsBase` but with one registered listener that throws. -/
def depsThrowingListener : SyncDeps :=
  { depsBase with listeners := [fun _ _ => .error "listener boom"] }

/-- Like `depsBase` but `provider.fetch()` rejects. -/
def depsFetchThrows : SyncDeps :=
  { depsBase with fetchR := .error "network down" }

/-- Like `depsBase` but the provider reports not connected. -/
def depsDisconnected : SyncDeps :=
  { depsBase with isConnectedR := .ok false }

/-- `sync()` while already `Syncing`. -/
theorem runSync_already (parse : String → Option Int) (d : SyncDeps) (s : EngineState)
    (h : s.status = .syncing) :
    runSync parse d s = (s, .ok ⟨false, some "Sync already in progress"⟩, []) := by
  simp [runSync, h]

/-- `sync()` with a disconnected provider. -/
theorem runSync_notConnected (parse : String → Option Int) (d : SyncDeps) (s : EngineState)
    (hs : s.status ≠ .syncing) (hc : d.isConnectedR = .ok false) :
    runSync parse d s = (s, .ok ⟨false, some "Not connected to sync provider"⟩, []) := by
  simp [runSync, hs, hc]

/-- `sync()` with no folder configured. -/
theorem runSync_noFolder (parse : String → Option Int) (d : SyncDeps) (s : EngineState)
    (hs : s.status ≠ .syncing) (hc : d.isConnectedR = .ok true)
    (hf : d.isFolderConfiguredR = .ok false) :
    runSync parse d s = (s, .ok ⟨false, some "No sync folder configured"⟩, []) := by
  simp [runSync, hs, hc, hf]

/-- The main path of `sync()` after a successful `Syncing` notification. -/
theorem runSync_main_ok (parse : String → Option Int) (d : SyncDeps) (s : EngineState)
    (hs : s.status ≠ .syncing) (hc : d.isConnectedR = .ok true)
    (hf : d.isFolderConfiguredR = .ok true)
    (hn1 : notifyStatusChange d.listeners .syncing none = .ok ()) :
    runSync parse d s =
      (match syncTry parse d with
        | (.ok _, effs) => (⟨.idle, none⟩, .ok ⟨true, none⟩, effs)
        | (.error e, effs) =>
          match notifyStatusChange d.listeners .error (some e) with
          | .error e2 => (⟨.error, some e⟩, .error e2, effs)
          | .ok _ => (⟨.error, some e⟩, .ok ⟨false, some e⟩, effs)) := by
  simp [runSync, hs, hc, hf, hn1]

/-- C8: the three preconditions of `sync()` each resolve immediately to
`{success: false}` with their own message, without throwing, leaving the
engine state untouched and performing no local or remote write. -/
theorem c8_sync_early_returns (parse : String → Option Int) (d : SyncDeps)
    (s : EngineState) :
    (s.status = .syncing →
      runSync parse d s = (s, .ok ⟨false, some "Sync already in progress"⟩, [])) ∧
    (s.status ≠ .syncing → d.isConnectedR = .ok false →
      runSync parse d s = (s, .ok ⟨false, some "Not connected to sync provider"⟩, [])) ∧
    (s.status ≠ .syncing → d.isConnectedR = .ok true →
        d.isFolderConfiguredR = .ok false →
      runSync parse d s = (s, .ok ⟨false, some "No sync folder configured"⟩, [])) ∧
    ("Sync already in progress" ≠ "Not connected to sync provider" ∧
      "Sync already in progress" ≠ "No sync folder configured" ∧
      "Not connected to sync provider" ≠ "No sync folder configured") := by
  refine ⟨?_, ?_, ?_, by decide⟩
  · exact runSync_already parse d s
  · exact runSync_notConnected parse d s
  · exact runSync_noFolder parse d s

/-- Witness for C8: a disconnected provider on an idle engine. -/
theorem c8_sync_early_returns_witness :
    runSync parseLen depsDisconnected ⟨.idle, none⟩ =
      (⟨.idle, none⟩, .ok ⟨false, some "Not connected to sync provider"⟩, []) :=
  (c8_sync_early_returns parseLen depsDisconnected ⟨.idle, none⟩).2.1
    (by simp) (by rfl)

/-- The claim C3 is false as stated: a status listener that throws during
the initial `Syncing` notification makes `sync()` reject (the exception
escapes, since that notification happens before the `try` block) and
leaves the engine status at `Syncing`. -/
theorem c3_counterexample :
    (runSync parseLen depsThrowingListener ⟨.idle, none⟩).2.1 =
        .error "listener boom" ∧
    (runSync parseLen depsThrowingListener ⟨.idle, none⟩).1 =
        ⟨.syncing, none⟩ :=
  ⟨rfl, rfl⟩

theorem notifyStatusChange_ok (ls : List Listener) (st : SyncStatus) (e : Option String)
    (h : ∀ l ∈ ls, l st e = .ok ()) : notifyStatusChange ls st e = .ok () := by
  induction ls with
  | nil => rfl
  | cons l ls ih =>
    have hl := h l (List.mem_cons_self _ _)
    simp only [notifyStatusChange, List.foldlM] at ih ⊢
    rw [hl]
    exact ih (fun l2 h2 => h l2 (List.mem_cons_of_mem _ h2))

/-- C3 as amended: when the registered listeners do not throw and the two
pre-flight provider checks return (rather than throw), `sync()` resolves
with a result object — exceptions thrown by the local-data accessor or
mutator, the last-sync getter or setter, or the provider's fetch/push are
all caught — and the engine never ends at `Syncing` (the call being made
while the status is not `Syncing`; a re-entrant call returns early with
the status untouched by design). -/
theorem c3_sync_terminates_amended (parse : String → Option Int) (d : SyncDeps)
    (s : EngineState) (hs : s.status ≠ .syncing)
    (hl : ∀ l ∈ d.listeners, ∀ st e, l st e = .ok ())
    (hc : ∃ c, d.isConnectedR = .ok c) (hf : ∃ f, d.isFolderConfiguredR = .ok f) :
    (∃ r, (runSync parse d s).2.1 = .ok r) ∧
    ((runSync parse d s).1.status = .idle ∨ (runSync parse d s).1.status = .error) := by
  have hstat : s.status = .idle ∨ s.status = .error := by
    cases h : s.status with
    | idle => exact Or.inl rfl
    | syncing => exact absurd h hs
    | error => exact Or.inr rfl
  rcases hc with ⟨c, hc⟩
  rcases hf with ⟨f, hf⟩
  cases c with
  | false =>
    rw [runSync_notConnected parse d s hs hc]
    exact ⟨⟨_, rfl⟩, by simpa using hstat⟩
  | true =>
    cases f with
    | false =>
      rw [runSync_noFolder parse d s hs hc hf]
      exact ⟨⟨_, rfl⟩, by simpa using hstat⟩
    | true =>
      rw [runSync_main_ok parse d s hs hc hf
        (notifyStatusChange_ok d.listeners .syncing none
          (fun l h2 => hl l h2 .syncing none))]
      rcases htry : syncTry parse d with ⟨res, effs⟩
      cases res with
      | ok u => exact ⟨⟨_, rfl⟩, Or.inl rfl⟩
      | error e =>
        have hn2 := notifyStatusChange_ok d.listeners .error (some e)
          (fun l h2 => hl l h2 .error (some e))
        simp only [hn2]
        exact ⟨⟨_, rfl⟩, Or.inr (by trivial)⟩

/-- Witness for the amended C3: `provider.fetch()` throws, yet `sync()`
resolves and ends in the `Error` state. -/
theorem c3_sync_terminates_amended_witness :
    (∃ r, (runSync parseLen depsFetchThrows ⟨.idle, none⟩).2.1 = .ok r) ∧
    ((runSync parseLen depsFetchThrows ⟨.idle, none⟩).1.status = .idle ∨
      (runSync parseLen depsFetchThrows ⟨.idle, none⟩).1.status = .error) :=
  c3_sync_terminates_amended parseLen depsFetchThrows ⟨.idle, none⟩
    (by simp) (by simp [depsFetchThrows, depsBase]) ⟨true, rfl⟩ ⟨true, rfl⟩

/-! ## OAuth theorems (C4, C5) -/

/-- C4: `handleCallback` succeeds exactly when no `error` parameter is
present, `code` and `state` are both present (and non-empty), a saved
OAuth session exists that has not been discarded, its saved `state`
equals the callback's `state`, and the token exchange responds with a
success status; a session is absent exactly when nothing was stored or
the stored session is older than ten minutes (in which case it is also
removed from storage); on success the computed token record — expiry
derived from `expires_in` with the 3600 s default — is persisted and the
session cleared. -/
theorem c4_handleCallback_iff (env : CallbackEnv) :
    ((∃ out, handleCallback env = .ok out) ↔
      (jsTruthyStr env.errorParam = false ∧ jsTruthyStr env.code = true ∧
        jsTruthyStr env.state = true ∧
        (∃ sv, (getOAuthState env.saved env.nowMs).1 = some sv ∧
          sv.state = env.state.getD "") ∧
        env.resp.ok = true)) ∧
    ((getOAuthState env.saved env.nowMs).1 = none ↔
      (env.saved = none ∨
        ∃ p, env.saved = some p ∧ env.nowMs - p.timestamp > 10 * 60 * 1000)) ∧
    (∀ p, env.saved = some p → env.nowMs - p.timestamp > 10 * 60 * 1000 →
      (getOAuthState env.saved env.nowMs).2 = none) ∧
    (jsTruthyStr env.errorParam = false → jsTruthyStr env.code = true →
      jsTruthyStr env.state = true →
      ∀ sv, (getOAuthState env.saved env.nowMs).1 = some sv →
        sv.state = env.state.getD "" → env.resp.ok = true →
      handleCallback env = .ok ⟨⟨env.resp.access_token, env.resp.refresh_token,
        env.nowMs + (env.resp.expires_in.getD 3600) * 1000⟩, true⟩) := by
  refine ⟨?_, ?_, ?_, ?_⟩
  · by_cases h1 : jsTruthyStr env.errorParam
    · simp [handleCallback, h1]
    · by_cases h2 : jsTruthyStr env.code
      · by_cases h3 : jsTruthyStr env.state
        · rcases hsv : (getOAuthState env.saved env.nowMs).1 with _ | sv
          · simp [handleCallback, h1, h2, h3, hsv]
          · by_cases h4 : sv.state = env.state.getD ""
            · by_cases h5 : env.resp.ok
              · simp [handleCallback, h1, h2, h3, hsv, h4, h5]
              · simp [handleCallback, h1, h2, h3, hsv, h4, h5]
            · simp [handleCallback, h1, h2, h3, hsv, h4]
        · simp [handleCallback, h1, h2, h3]
      · simp [handleCallback, h1, h2]
  · rcases hsaved : env.saved with _ | p
    · simp [getOAuthState]
    · by_cases hc : (600000 : Int) < env.nowMs - p.timestamp <;>
        simp [getOAuthState, hc]
  · intro p hp hexp
    have hc : (600000 : Int) < env.nowMs - p.timestamp := by omega
    simp [getOAuthState, hp, hc]
  · intro h1 h2 h3 sv hsv h4 h5
    simp [handleCallback, saveToken, h1, h2, h3, hsv, h4, h5]

/-- Witness for C4: a matching saved session and a successful exchange
persist the expected token record. -/
theorem c4_handleCallback_iff_witness :
    handleCallback
      ⟨some "authcode", some "st", none, some ⟨"st", "ver", 0⟩, 1000,
        ⟨true, "tok", none, some 100, none, none⟩⟩ =
      .ok ⟨⟨"tok", none, 1000 + 100 * 1000⟩, true⟩ :=
  (c4_handleCallback_iff
    ⟨some "authcode", some "st", none, some ⟨"st", "ver", 0⟩, 1000,
      ⟨true, "tok", none, some 100, none, none⟩⟩).2.2.2
    (by rfl) (by rfl) (by rfl) ⟨"st", "ver", 0⟩ (by rfl) (by rfl) (by rfl)

/-- C5: `getToken` yields null when nothing is stored; once the clock is
strictly inside the 5-minute buffer before the stored expiry it yields
null even though the stored token string is unchanged — deleting the
stored record when it has no (truthy) refresh token and keeping it
verbatim when it has one; outside the buffer it returns the stored
access token and leaves the record untouched. -/
theorem c5_getToken_expiry (stored : Option StoredToken) (nowMs : Int) :
    (stored = none → getTokenRun stored nowMs = (none, none)) ∧
    (∀ p, stored = some p → nowMs > p.expiry - 5 * 60 * 1000 →
      (getTokenRun stored nowMs).1 = none ∧
      (jsTruthyStr p.refreshToken = false → (getTokenRun stored nowMs).2 = none) ∧
      (jsTruthyStr p.refreshToken = true → (getTokenRun stored nowMs).2 = some p)) ∧
    (∀ p, stored = some p → ¬(nowMs > p.expiry - 5 * 60 * 1000) →
      getTokenRun stored nowMs = (some p.accessToken, some p)) := by
  refine ⟨?_, ?_, ?_⟩
  · intro h
    simp [getTokenRun, h]
  · intro p hp hexp
    have hc : p.expiry - 300000 < nowMs := by omega
    refine ⟨?_, ?_, ?_⟩
    · by_cases hr : jsTruthyStr p.refreshToken <;> simp [getTokenRun, hp, hc, hr]
    · intro hr
      simp [getTokenRun, hp, hc, hr]
    · intro hr
      simp [getTokenRun, hp, hc, hr]
  · intro p hp hexp
    have hc : ¬(p.expiry - 300000 < nowMs) := by omega
    simp [getTokenRun, hp, hc]

/-- Witness for C5: a token 4 minutes 59.999 seconds before expiry, with
no refresh token, is reported null and deleted. -/
theorem c5_getToken_expiry_witness :
    (getTokenRun (some ⟨"tok", none, 1000000⟩) 700001).1 = none ∧
    (getTokenRun (some ⟨"tok", none, 1000000⟩) 700001).2 = none := by
  have h := (c5_getToken_expiry (some ⟨"tok", none, 1000000⟩) 700001).2.1
    ⟨"tok", none, 1000000⟩ rfl (by decide)
  exact ⟨h.1, h.2.1 (by rfl)⟩

/-! ## Provider theorems (C6, C7, C9) -/

/-- An unauthenticated provider environment. -/
def penvNoAuth : PEnv where
  token := none
  folder := none
  jparse := fun _ => none
  net := fun _ => ⟨false, ""⟩

/-- Fresh provider state: both cached ids `null`, no requests issued. -/
def pstateInit : PState := ⟨.jnull, .jnull, 0⟩

/-- The claim C6 is false as stated: `downloadAttachment` never checks the
token — unauthenticated, it still issues the network request (one call is
recorded) and fails with the generic download error, not with
`NotAuthenticatedError`. -/
theorem c6_counterexample :
    penvNoAuth.token = none ∧
    (downloadAttachmentOp penvNoAuth pstateInit).2.calls = 1 ∧
    (downloadAttachmentOp penvNoAuth pstateInit).1 =
      .error "Failed to download attachment" :=
  ⟨rfl, rfl, rfl⟩

/-- C6 as amended: unauthenticated remote operations that reach
`apiRequest` before any direct `window.fetch` fail with the
not-authenticated error and issue no network request (the returned state
is the input state, so `calls` is unchanged): `deleteAttachment` always;
`listAllDomainFiles` when a folder is configured; `fetch` and `push` when
the data-file id is not cached and a folder is configured;
`uploadAttachment` when the attachments-folder id is not cached and a
folder is configured; `listAttachments` when the attachments-folder id is
cached or a folder is configured.  The exceptions: `fetchDomainData`
swallows the error and resolves `null` (no network I/O); `fetch` with a
cached id resolves `{data: null, lastModified: null}` (no network I/O);
`downloadAttachment` always, and `push` with a cached id, issue the
request anyway. -/
theorem c6_not_authenticated_amended (env : PEnv) (s : PState)
    (htok : env.token = none) :
    deleteAttachmentOp env s = (.error "Not authenticated with Google", s) ∧
    fetchDomainDataOp env s = (.ok .jnull, s) ∧
    (env.folder.isSome →
      listAllDomainFilesOp env s = (.error "Not authenticated with Google", s)) ∧
    (s.fileId.truthy = false → env.folder.isSome →
      fetchOp env s = (.error "Not authenticated with Google", s)) ∧
    (s.fileId.truthy = false → env.folder.isSome →
      pushOp env s = (.error "Not authenticated with Google", s)) ∧
    (∀ attId fn, s.attachmentsFolderId.truthy = false → env.folder.isSome →
      uploadAttachmentOp env attId fn s = (.error "Not authenticated with Google", s)) ∧
    (s.attachmentsFolderId.truthy = true ∨ env.folder.isSome →
      listAttachmentsOp env s = (.error "Not authenticated with Google", s)) ∧
    (s.fileId.truthy = true → fetchOp env s = (.ok ⟨.jnull, .jnull⟩, s)) ∧
    (s.fileId.truthy = true → (pushOp env s).2.calls = s.calls + 1) ∧
    (downloadAttachmentOp env s).2.calls = s.calls + 1 := by
  have hapi : apiRequest env s = (.error "Not authenticated with Google", s) := by
    simp [apiRequest, htok]
  refine ⟨?_, ?_, ?_, ?_, ?_, ?_, ?_, ?_, ?_, ?_⟩
  · simp [deleteAttachmentOp, hapi]
  · simp [fetchDomainDataOp, hapi]
  · intro hfold
    rcases hf : env.folder with _ | fid
    · rw [hf] at hfold; simp at hfold
    · simp [listAllDomainFilesOp, hf, hapi]
  · intro hcache hfold
    rcases hf : env.folder with _ | fid
    · rw [hf] at hfold; simp at hfold
    · simp [fetchOp, getOrCreateDataFile, hcache, hf, hapi]
  · intro hcache hfold
    rcases hf : env.folder with _ | fid
    · rw [hf] at hfold; simp at hfold
    · simp [pushOp, getOrCreateDataFile, hcache, hf, hapi]
  · intro attId fn hcache hfold
    rcases hf : env.folder with _ | fid
    · rw [hf] at hfold; simp at hfold
    · simp [uploadAttachmentOp, getOrCreateAttachmentsFolder, hcache, hf, hapi]
  · intro hpre
    rcases hcache : s.attachmentsFolderId.truthy with _ | _
    · rcases hf : env.folder with _ | fid
      · rcases hpre with hpre | hpre
        · rw [hcache] at hpre; cases hpre
        · rw [hf] at hpre; simp at hpre
      · simp [listAttachmentsOp, getOrCreateAttachmentsFolder, hcache, hf, hapi]
    · simp [listAttachmentsOp, getOrCreateAttachmentsFolder, hcache, hapi]
  · intro hcache
    simp [fetchOp, getOrCreateDataFile, hcache, hapi]
  · intro hcache
    simp only [pushOp, getOrCreateDataFile, hcache, if_true]
    by_cases hok : (env.net s.calls).ok = true <;> simp [hok]
  · simp only [downloadAttachmentOp]
    by_cases hok : (env.net s.calls).ok = true <;> simp [hok]

/-- Witness for the amended C6: `push` on a fresh state with a configured
folder fails fast without network I/O when unauthenticated. -/
theorem c6_not_authenticated_amended_witness :
    pushOp { penvNoAuth with folder := some "folder1" } pstateInit =
      (.error "Not authenticated with Google", pstateInit) :=
  (c6_not_authenticated_amended { penvNoAuth with folder := some "folder1" }
    pstateInit rfl).2.2.2.2.1 rfl (by rfl)

theorem apiRequest_notok (env : PEnv) (s : PState) (tok : String)
    (htok : env.token = some tok) (h : (env.net s.calls).ok = false) :
    ∃ e, apiRequest env s = (.error e, { s with calls := s.calls + 1 }) := by
  simp only [apiRequest, htok, h]
  rcases apiErrMsg env (env.net s.calls).text with e | m
  · exact ⟨e, rfl⟩
  · exact ⟨m, rfl⟩

theorem apiRequest_empty (env : PEnv) (s : PState) (tok : String)
    (htok : env.token = some tok) (hok : (env.net s.calls).ok = true)
    (htext : (env.net s.calls).text = "") :
    apiRequest env s = (.ok .jnull, { s with calls := s.calls + 1 }) := by
  simp [apiRequest, htok, hok, htext]

theorem apiRequest_parse_none (env : PEnv) (s : PState) (tok : String)
    (htok : env.token = some tok) (hok : (env.net s.calls).ok = true)
    (htext : (env.net s.calls).text ≠ "")
    (hparse : env.jparse (env.net s.calls).text = none) :
    apiRequest env s = (.ok .jnull, { s with calls := s.calls + 1 }) := by
  simp [apiRequest, htok, hok, htext, hparse]

theorem apiRequest_parse_some (env : PEnv) (s : PState) (tok : String) (v : JVal)
    (htok : env.token = some tok) (hok : (env.net s.calls).ok = true)
    (htext : (env.net s.calls).text ≠ "")
    (hparse : env.jparse (env.net s.calls).text = some v) :
    apiRequest env s = (.ok v, { s with calls := s.calls + 1 }) := by
  simp [apiRequest, htok, hok, htext, hparse]

/-- C7: once the data file is located or created, `fetch()` resolves
(never throws): a failed download, an empty body, an unparseable body or
a parsed non-object all yield `{data: null, lastModified: null}`, and a
parsed object document yields its (truthiness-filtered) `data` and
`lastModified` fields. -/
theorem c7_fetch_null_fallback (env : PEnv) (s : PState) (tok : String)
    (htok : env.token = some tok)
    (hG : ∃ idv, (getOrCreateDataFile env s).1 = .ok idv) :
    (∃ out, (fetchOp env s).1 = .ok out) ∧
    ((env.net (getOrCreateDataFile env s).2.calls).ok = false →
      (fetchOp env s).1 = .ok ⟨.jnull, .jnull⟩) ∧
    ((env.net (getOrCreateDataFile env s).2.calls).ok = true →
      ((env.net (getOrCreateDataFile env s).2.calls).text = "" ∨
        env.jparse (env.net (getOrCreateDataFile env s).2.calls).text = none) →
      (fetchOp env s).1 = .ok ⟨.jnull, .jnull⟩) ∧
    (∀ v, (env.net (getOrCreateDataFile env s).2.calls).ok = true →
      (env.net (getOrCreateDataFile env s).2.calls).text ≠ "" →
      env.jparse (env.net (getOrCreateDataFile env s).2.calls).text = some v →
      (v.truthy = false ∨ v.isObjectType = false) →
      (fetchOp env s).1 = .ok ⟨.jnull, .jnull⟩) ∧
    (∀ v, (env.net (getOrCreateDataFile env s).2.calls).ok = true →
      (env.net (getOrCreateDataFile env s).2.calls).text ≠ "" →
      env.jparse (env.net (getOrCreateDataFile env s).2.calls).text = some v →
      v.truthy = true → v.isObjectType = true →
      (fetchOp env s).1 =
        .ok ⟨jsOr (v.getQ "data") .jnull, jsOr (v.getQ "lastModified") .jnull⟩) := by
  rcases hG with ⟨idv, hG1⟩
  rcases hGfull : getOrCreateDataFile env s with ⟨res, s1⟩
  rw [hGfull] at hG1
  simp only at hG1
  subst hG1
  have hfetch : fetchOp env s =
      (match apiRequest env s1 with
        | (.error _e, s2) => (.ok ⟨.jnull, .jnull⟩, s2)
        | (.ok resp, s2) =>
          if !resp.truthy || !resp.isObjectType then (.ok ⟨.jnull, .jnull⟩, s2)
          else (.ok ⟨jsOr (resp.getQ "data") .jnull,
            jsOr (resp.getQ "lastModified") .jnull⟩, s2)) := by
    simp [fetchOp, hGfull]
  refine ⟨?_, ?_, ?_, ?_, ?_⟩
  · rcases hapi : apiRequest env s1 with ⟨ares, s2⟩
    cases ares with
    | error e => exact ⟨⟨.jnull, .jnull⟩, by rw [hfetch, hapi]⟩
    | ok resp =>
      by_cases hobj : (!resp.truthy || !resp.isObjectType) = true
      · exact ⟨⟨.jnull, .jnull⟩, by rw [hfetch, hapi]; simp [hobj]⟩
      · exact ⟨⟨jsOr (resp.getQ "data") .jnull, jsOr (resp.getQ "lastModified") .jnull⟩,
          by rw [hfetch, hapi]; simp [hobj]⟩
  · intro hok
    replace hok : (env.net s1.calls).ok = false := hok
    rcases apiRequest_notok env s1 tok htok hok with ⟨e, hapi⟩
    rw [hfetch, hapi]
  · intro hok hor
    replace hok : (env.net s1.calls).ok = true := hok
    replace hor : (env.net s1.calls).text = "" ∨
        env.jparse (env.net s1.calls).text = none := hor
    rcases hor with htext | hparse
    · rw [hfetch, apiRequest_empty env s1 tok htok hok htext]
      simp [JVal.truthy]
    · by_cases htext : (env.net s1.calls).text = ""
      · rw [hfetch, apiRequest_empty env s1 tok htok hok htext]
        simp [JVal.truthy]
      · rw [hfetch, apiRequest_parse_none env s1 tok htok hok htext hparse]
        simp [JVal.truthy]
  · intro v hok htext hparse hbad
    replace hok : (env.net s1.calls).ok = true := hok
    replace htext : (env.net s1.calls).text ≠ "" := htext
    replace hparse : env.jparse (env.net s1.calls).text = some v := hparse
    rw [hfetch, apiRequest_parse_some env s1 tok v htok hok htext hparse]
    rcases hbad with hbad | hbad <;> simp [hbad]
  · intro v hok htext hparse htr hob
    replace hok : (env.net s1.calls).ok = true := hok
    replace htext : (env.net s1.calls).text ≠ "" := htext
    replace hparse : env.jparse (env.net s1.calls).text = some v := hparse
    rw [hfetch, apiRequest_parse_some env s1 tok v htok hok htext hparse]
    simp [htr, hob]

/-- A provider environment for the C7 witness: authenticated, folder
configured, the wire carries a parseable document. -/
def penvDoc : PEnv where
  token := some "tok"
  folder := some "folder1"
  jparse := fun t =>
    if t = "body" then some (.jobj [("data", .jstr "X"), ("lastModified", .jstr "L")])
    else none
  net := fun _ => ⟨true, "body"⟩

/-- Provider state with a cached (truthy) data-file id. -/
def pstateCached : PState := ⟨.jstr "file1", .jnull, 0⟩

/-- Witness for C7: a parseable remote document is returned as its `data`
and `lastModified` fields. -/
theorem c7_fetch_null_fallback_witness :
    (fetchOp penvDoc pstateCached).1 = .ok ⟨.jstr "X", .jstr "L"⟩ :=
  ((c7_fetch_null_fallback penvDoc pstateCached "tok" rfl ⟨.jstr "file1", rfl⟩).2.2.2.2
    (.jobj [("data", .jstr "X"), ("lastModified", .jstr "L")])
    (by rfl) (by decide) (by rfl) (by rfl) (by rfl)).trans (by rfl)

theorem findIdx_dash_append (r : List Char) :
    ∀ l : List Char, '-' ∉ l →
      (l ++ '-' :: r).findIdx? (fun c => c = '-') = some l.length := by
  intro l
  induction l with
  | nil => intro _; simp [List.findIdx?_cons]
  | cons c l ih =>
    intro h
    simp only [List.mem_cons, not_or] at h
    have hc : (decide (c = '-')) = false := by
      simp only [decide_eq_false_iff_not]
      exact fun h2 => h.1 h2.symm
    rw [List.cons_append, List.findIdx?_cons]
    simp [hc, ih h.2]

theorem findIdx_dash_none (l : List Char) (h : '-' ∉ l) :
    l.findIdx? (fun c => c = '-') = none := by
  induction l with
  | nil => rfl
  | cons c cs ih =>
    simp only [List.mem_cons, not_or] at h
    have hc : (decide (c = '-')) = false := by
      simp only [decide_eq_false_iff_not]
      exact fun h2 => h.1 h2.symm
    rw [List.findIdx?_cons]
    simp [hc, ih h.2]

/-- C9: storing under `"{attachmentId}-{filename}"` and splitting on the
first `-` (as `listAttachments` does) recovers the original id and
filename whenever the id is non-empty and dash-free; and a name without
any `-` is recovered verbatim as both id and filename. -/
theorem c9_attachment_name_roundtrip :
    (∀ attachmentId filename : String, attachmentId ≠ "" →
      '-' ∉ attachmentId.toList →
      parseAttachmentName (mkAttachmentName attachmentId filename) =
        (attachmentId, filename)) ∧
    (∀ name : String, '-' ∉ name.toList →
      parseAttachmentName name = (name, name)) := by
  constructor
  · intro id fn hne hdash
    have htl : (mkAttachmentName id fn).toList = id.toList ++ '-' :: fn.toList := by
      simp [mkAttachmentName, String.toList]
    have hidx : dashIndex (mkAttachmentName id fn) = some id.toList.length := by
      rw [dashIndex, htl]
      exact findIdx_dash_append fn.toList id.toList hdash
    have hlen : 0 < id.toList.length := by
      have hnil : id.toList ≠ [] := by
        intro h0
        apply hne
        have h1 : id = String.mk id.toList := rfl
        rw [h1, h0]
      exact List.length_pos.mpr hnil
    have htake : (mkAttachmentName id fn).toList.take id.toList.length = id.toList := by
      rw [htl, List.take_left]
    have hdrop : (mkAttachmentName id fn).toList.drop (id.toList.length + 1) =
        fn.toList := by
      have hsplit : (mkAttachmentName id fn).toList =
          (id.toList ++ ['-']) ++ fn.toList := by
        rw [htl]
        simp
      rw [hsplit]
      have hlen2 : id.toList.length + 1 = (id.toList ++ ['-']).length := by simp
      rw [hlen2, List.drop_left]
    simp only [parseAttachmentName, hidx]
    rw [if_pos hlen, htake, hdrop]
    rfl
  · intro name hdash
    simp only [parseAttachmentName, dashIndex, findIdx_dash_none name.toList hdash]

/-- Witness for C9: a dash-free id with a filename that itself contains a
dash round-trips. -/
theorem c9_attachment_name_roundtrip_witness :
    parseAttachmentName (mkAttachmentName "abc123" "photo-1.png") =
      ("abc123", "photo-1.png") :=
  c9_attachment_name_roundtrip.1 "abc123" "photo-1.png" (by decide) (by decide)

end Seneschal
